import Mathlib

/-!
Shallow embedding of `kafka/client.py` (class `KafkaClient`): the cluster
metadata cache, the broker-unaware and broker-aware request paths, and the
typed request facades.  External collaborators that are out of the repo's
`src/` tree (the protocol codec, the connection pools and the error-code
table) are represented as oracle parameters or plain data, following the
interface boundary the spec describes.
-/

namespace KafkaSpec

/-- Immutable (topic, partition) pair used as a map key
(`kafka.common.TopicAndPartition`). -/
structure TopicAndPartition where
  topic : String
  partition : Nat
  deriving DecidableEq, Repr

/-- Broker identity as decoded from a metadata response. -/
structure BrokerMetadata where
  nodeId : Int
  host : String
  port : Nat
  deriving DecidableEq, Repr

instance : Inhabited BrokerMetadata := ⟨⟨0, "", 0⟩⟩

/-- Per-partition metadata from a metadata response; `leader = -1` is the
leader-absent sentinel. -/
structure PartitionMetadata where
  leader : Int
  deriving DecidableEq, Repr

/-- Association-list lookup, mirroring Python `d[k]` / `k in d`. -/
def alookup {α β : Type} [DecidableEq α] : List (α × β) → α → Option β
  | [], _ => none
  | (k, v) :: rest, a => if k = a then some v else alookup rest a

/-- Association-list insert-or-overwrite, mirroring Python `d[k] = v`. -/
def ainsert {α β : Type} [DecidableEq α] : List (α × β) → α → β → List (α × β)
  | [], a, b => [(a, b)]
  | (k, v) :: rest, a, b =>
    if k = a then (a, b) :: rest else (k, v) :: ainsert rest a b

/-- Association-list key removal, mirroring Python `d.pop(k, None)`. -/
def apop {α β : Type} [DecidableEq α] : List (α × β) → α → List (α × β)
  | [], _ => []
  | (k, v) :: rest, a => if k = a then apop rest a else (k, v) :: apop rest a

/-- Mirrors `self.topic_partitions[topic].append(partition)` on a
`defaultdict(list)`. -/
def append_partition : List (String × List Nat) → String → Nat → List (String × List Nat)
  | [], t, p => [(t, [p])]
  | (k, ps) :: rest, t, p =>
    if k = t then (k, ps ++ [p]) :: rest else (k, ps) :: append_partition rest t p

/-- Modelled from the spec: the decoded result of
`KafkaProtocol.decode_metadata_response` (the codec lives outside `src/`) —
a broker map (broker id to `BrokerMetadata`) and, per topic, a partition
map (partition number to `PartitionMetadata`). -/
structure MetadataResponse where
  brokers : List (Int × BrokerMetadata)
  topics : List (String × List (Nat × PartitionMetadata))
  deriving DecidableEq, Repr

/-- One broker-unaware attempt: the outcome of `conn.request` on each pool
of the connection registry, in iteration order (`none` = the connection
raised an exception for that pool). -/
abbrev Pools := List (Option MetadataResponse)

/-- The mutable cluster view held by `KafkaClient`:
`self.brokers`, `self.topics_to_brokers` and `self.topic_partitions`. -/
structure ClientState where
  brokers : List (Int × BrokerMetadata)
  topics_to_brokers : List (TopicAndPartition × BrokerMetadata)
  topic_partitions : List (String × List Nat)
  deriving DecidableEq, Repr

/-- Client state plus the ambient world: the stream of per-refresh pool
outcomes consumed by successive metadata requests, the log of metadata
requests issued (each entry is the topic list of one request), and the
number of 1-second sleeps performed. -/
structure LoadCtx where
  st : ClientState
  stream : List Pools
  requests : List (List String)
  sleeps : Nat
  deriving DecidableEq, Repr

/-- Failure modes of a metadata refresh.  `allServersFailed` is the
`"All servers failed to process request"` exception; `brokerKeyError` is
the `KeyError` from `brokers[meta.leader]`; `outOfFuel` is a modelling
artifact for the unbounded recursive retry. -/
inductive LoadErr where
  | allServersFailed
  | brokerKeyError (leader : Int)
  | outOfFuel
  deriving DecidableEq, Repr

/-- Outcome of a metadata refresh: the updated context and, when the call
raised, the exception (`none` = returned normally). -/
structure LoadRes where
  ctx : LoadCtx
  err : Option LoadErr
  deriving DecidableEq, Repr

/-- `KafkaClient._send_broker_unaware_request`: try each known connection
pool in registry iteration order, moving to the next on any failure;
`none` when every pool failed. -/
def send_broker_unaware_request : Pools → Option MetadataResponse
  | [] => none
  | c :: rest =>
    match c with
    | some r => some r
    | none => send_broker_unaware_request rest

mutual

/-- `KafkaClient._load_metadata_for_topics`: issue a metadata request via
the broker-unaware path, replace `self.brokers`, clear
`self.topics_to_brokers`, then process every topic of the response.
The `fuel` argument bounds the (in the source, unbounded) recursive
retries. -/
def load_metadata_for_topics (fuel : Nat) (ctx : LoadCtx) (ts : List String) : LoadRes :=
  match fuel with
  | 0 => ⟨ctx, some .outOfFuel⟩
  | n + 1 =>
    match ctx.stream with
    | [] => ⟨ctx, some .outOfFuel⟩
    | pools :: rest =>
      match send_broker_unaware_request pools with
      | none =>
        ⟨{ ctx with stream := rest, requests := ctx.requests ++ [ts] },
          some .allServersFailed⟩
      | some resp =>
        process_topics n
          { ctx with
            st := { ctx.st with brokers := resp.brokers, topics_to_brokers := [] },
            stream := rest,
            requests := ctx.requests ++ [ts] }
          resp.brokers resp.topics
termination_by (fuel, 0, 0)

/-- The `for topic, partitions in topics.items()` loop of
`_load_metadata_for_topics`: pop the topic's stale partition list, then
either retry-and-break (no partitions at all) or process the partitions. -/
def process_topics (fuel : Nat) (ctx : LoadCtx) (bs : List (Int × BrokerMetadata))
    (items : List (String × List (Nat × PartitionMetadata))) : LoadRes :=
  match items with
  | [] => ⟨ctx, none⟩
  | (topic, parts) :: rest =>
    match parts with
    | [] =>
      load_metadata_for_topics fuel
        { ctx with
          st := { ctx.st with topic_partitions := apop ctx.st.topic_partitions topic },
          sleeps := ctx.sleeps + 1 }
        [topic]
    | _ :: _ =>
      match process_partitions fuel
          { ctx with
            st := { ctx.st with topic_partitions := apop ctx.st.topic_partitions topic } }
          bs topic parts with
      | ⟨ctx1, some e⟩ => ⟨ctx1, some e⟩
      | ⟨ctx1, none⟩ => process_topics fuel ctx1 bs rest
termination_by (fuel, 2, items.length)

/-- The `for partition, meta in partitions.items()` loop of
`_load_metadata_for_topics`: a `-1` leader sleeps and retries the refresh
for this topic (then keeps iterating); otherwise the partition's leader
mapping is committed and the partition appended to the topic's list. -/
def process_partitions (fuel : Nat) (ctx : LoadCtx) (bs : List (Int × BrokerMetadata))
    (topic : String) (parts : List (Nat × PartitionMetadata)) : LoadRes :=
  match parts with
  | [] => ⟨ctx, none⟩
  | (partition, meta) :: rest =>
    if meta.leader = -1 then
      match load_metadata_for_topics fuel { ctx with sleeps := ctx.sleeps + 1 } [topic] with
      | ⟨ctx1, some e⟩ => ⟨ctx1, some e⟩
      | ⟨ctx1, none⟩ => process_partitions fuel ctx1 bs topic rest
    else
      match alookup bs meta.leader with
      | none => ⟨ctx, some (.brokerKeyError meta.leader)⟩
      | some b =>
        process_partitions fuel
          { ctx with
            st := { ctx.st with
              topics_to_brokers :=
                ainsert ctx.st.topics_to_brokers ⟨topic, partition⟩ b,
              topic_partitions :=
                append_partition ctx.st.topic_partitions topic partition } }
          bs topic rest
termination_by (fuel, 1, parts.length)

end

/-- Failure modes of `KafkaClient._get_leader_for_partition`. -/
inductive LeaderErr where
  | load (e : LoadErr)
  | partitionDoesNotExist (topic : String) (partition : Nat)
  deriving DecidableEq, Repr

/-- Outcome of a leader lookup: the updated context and the leader or the
exception raised. -/
structure LeaderRes where
  ctx : LoadCtx
  res : Except LeaderErr BrokerMetadata
  deriving Repr

/-- `KafkaClient._get_leader_for_partition`: look up the cached leader; on
a miss refresh the metadata for this one topic and re-check; raise
`Partition does not exist` if the key is still absent. -/
def get_leader_for_partition (fuel : Nat) (ctx : LoadCtx) (topic : String)
    (partition : Nat) : LeaderRes :=
  match alookup ctx.st.topics_to_brokers ⟨topic, partition⟩ with
  | some b => ⟨ctx, .ok b⟩
  | none =>
    match load_metadata_for_topics fuel ctx [topic] with
    | ⟨ctx1, some e⟩ => ⟨ctx1, .error (.load e)⟩
    | ⟨ctx1, none⟩ =>
      match alookup ctx1.st.topics_to_brokers ⟨topic, partition⟩ with
      | none => ⟨ctx1, .error (.partitionDoesNotExist topic partition)⟩
      | some b => ⟨ctx1, .ok b⟩

/-- A request payload: bound to one (topic, partition), with a tag
standing in for the kind-specific fields. -/
structure Payload where
  topic : String
  partition : Nat
  tag : Nat
  deriving DecidableEq, Repr

/-- A decoded response: bound to a (topic, partition), carrying the
application-level error code and a value standing in for the
kind-specific fields. -/
structure Response where
  topic : String
  partition : Nat
  error : Int
  value : Nat
  deriving DecidableEq, Repr

instance : Inhabited Response := ⟨⟨"", 0, 0, 0⟩⟩

/-- Mirrors `payloads_by_broker[leader].append(payload)` on a
`defaultdict(list)` keyed by the leader's `BrokerMetadata`. -/
def group_insert : List (BrokerMetadata × List Payload) → BrokerMetadata → Payload →
    List (BrokerMetadata × List Payload)
  | [], b, p => [(b, [p])]
  | (k, ps) :: rest, b, p =>
    if k = b then (k, ps ++ [p]) :: rest else (k, ps) :: group_insert rest b p

/-- Outcome of `KafkaClient._group_request`. -/
structure GroupRes where
  ctx : LoadCtx
  res : Except LeaderErr (List (String × Nat) × List (BrokerMetadata × List Payload))
  deriving Repr

/-- The loop body of `KafkaClient._group_request`: resolve each payload's
leader (possibly refreshing metadata), group payloads by leader and record
the original `(topic, partition)` key order. -/
def group_request_go (fuel : Nat) (ctx : LoadCtx) (ks : List (String × Nat))
    (gs : List (BrokerMetadata × List Payload)) : List Payload → GroupRes
  | [] => ⟨ctx, .ok (ks, gs)⟩
  | p :: rest =>
    match get_leader_for_partition fuel ctx p.topic p.partition with
    | ⟨ctx1, .error e⟩ => ⟨ctx1, .error e⟩
    | ⟨ctx1, .ok leader⟩ =>
      group_request_go fuel ctx1 (ks ++ [(p.topic, p.partition)])
        (group_insert gs leader p) rest

/-- `KafkaClient._group_request`. -/
def group_request (fuel : Nat) (ctx : LoadCtx) (payloads : List Payload) : GroupRes :=
  group_request_go fuel ctx [] [] payloads

/-- Failure modes of `KafkaClient._send_broker_aware_request`:
a propagated leader-resolution failure, `FailedPayloadsException`, or the
`KeyError` raised while the returned generator is consumed. -/
inductive SendErr where
  | leader (e : LeaderErr)
  | failedPayloads (ps : List Payload)
  | keyError (k : String × Nat)
  deriving DecidableEq, Repr

/-- Accumulated outcome of the per-broker dispatch loop of
`_send_broker_aware_request`. -/
structure DispatchRes where
  st : ClientState
  contacted : List BrokerMetadata
  failed : List Payload
  acc : List ((String × Nat) × Response)
  deriving DecidableEq, Repr

/-- The `for broker, payloads in payloads_by_broker.items()` loop of
`_send_broker_aware_request`.  The `exchange` oracle stands for
encode + `conn.push`/`conn.request` + decode for one leader group
(`none` = `ConnectionError`); on failure the group's payloads are recorded
as failed and `self.topics_to_brokers` is reset; on success with a decoder
each decoded response is indexed into the accumulator by its key. -/
def dispatch_groups (exchange : BrokerMetadata → List Payload → Option (List Response))
    (hasDecoder : Bool) : List (BrokerMetadata × List Payload) → ClientState →
    List BrokerMetadata → List Payload → List ((String × Nat) × Response) → DispatchRes
  | [], st, contacted, failed, acc => ⟨st, contacted, failed, acc⟩
  | (b, ps) :: rest, st, contacted, failed, acc =>
    match exchange b ps with
    | none =>
      dispatch_groups exchange hasDecoder rest
        { st with topics_to_brokers := [] } (contacted ++ [b]) (failed ++ ps) acc
    | some rs =>
      dispatch_groups exchange hasDecoder rest st (contacted ++ [b]) failed
        (if hasDecoder then rs.foldl (fun a r => ainsert a (r.topic, r.partition) r) acc
         else acc)

/-- Consumption of the generator `(acc[k] for k in original_keys)`:
the first key missing from the accumulator raises `KeyError`. -/
def collect (acc : List ((String × Nat) × Response)) :
    List (String × Nat) → Except (String × Nat) (List Response)
  | [] => .ok []
  | k :: rest =>
    match alookup acc k with
    | none => .error k
    | some r =>
      match collect acc rest with
      | .ok rs => .ok (r :: rs)
      | .error k2 => .error k2

/-- Outcome of `_send_broker_aware_request`: final context, the brokers
dispatched to (in group order), and the responses in original key order or
the exception raised. -/
structure SendRes where
  ctx : LoadCtx
  contacted : List BrokerMetadata
  res : Except SendErr (List Response)
  deriving Repr

/-- `KafkaClient._send_broker_aware_request`: group payloads by leader,
dispatch one request per leader, raise `FailedPayloadsException` if any
group failed, otherwise return the accumulated responses in original key
order (an empty sequence when nothing was decoded). -/
def send_broker_aware_request (fuel : Nat) (ctx : LoadCtx) (payloads : List Payload)
    (hasDecoder : Bool)
    (exchange : BrokerMetadata → List Payload → Option (List Response)) : SendRes :=
  match group_request fuel ctx payloads with
  | ⟨ctx1, .error e⟩ => ⟨ctx1, [], .error (.leader e)⟩
  | ⟨ctx1, .ok (ks, gs)⟩ =>
    match dispatch_groups exchange hasDecoder gs ctx1.st [] [] [] with
    | ⟨st1, contacted, failed, acc⟩ =>
      let ctx2 := { ctx1 with st := st1 }
      if failed.isEmpty then
        if acc.isEmpty then ⟨ctx2, contacted, .ok []⟩
        else
          match collect acc ks with
          | .ok rs => ⟨ctx2, contacted, .ok rs⟩
          | .error k => ⟨ctx2, contacted, .error (.keyError k)⟩
      else ⟨ctx2, contacted, .error (.failedPayloads failed)⟩

/-- A failure raised by a typed facade: a propagated router failure, or a
protocol error built from the error-code table.  `cls` is the exception
class chosen from the table, `tp` the (topic, partition) the message
carries (`none` when the message carries only the code), `code` the
numeric error code. -/
inductive FacadeErr where
  | send (e : SendErr)
  | protocolError (cls : String) (tp : Option (String × Nat)) (code : Int)
  deriving DecidableEq, Repr

/-- The shared response-checking loop of the typed facades: in strict mode
(`fail_on_error = true`) the first response with a non-zero error code
raises the exception class mapped by `errmap`
(`ERROR_CODE_MAPPING.get(code, UnknownException)`, the table lives outside
`src/`); `carryTP` records whether the raised message carries the
offending (topic, partition) next to the code. -/
def check_responses (carryTP : Bool) (errmap : Int → Option String)
    (fail_on_error : Bool) : List Response → Except FacadeErr (List Response)
  | [] => .ok []
  | r :: rest =>
    if fail_on_error = true ∧ r.error ≠ 0 then
      .error (.protocolError ((errmap r.error).getD "UnknownException")
        (if carryTP then some (r.topic, r.partition) else none) r.error)
    else
      match check_responses carryTP errmap fail_on_error rest with
      | .ok rs => .ok (r :: rs)
      | .error e => .error e

/-- Response checking of `KafkaClient.send_produce_request`
(the message carries the `TopicAndPartition` and the code). -/
def send_produce_request_check : (Int → Option String) → Bool →
    List Response → Except FacadeErr (List Response) :=
  check_responses true

/-- Response checking of `KafkaClient.send_fetch_request`
(the message carries the `TopicAndPartition` and the code). -/
def send_fetch_request_check : (Int → Option String) → Bool →
    List Response → Except FacadeErr (List Response) :=
  check_responses true

/-- Response checking of `KafkaClient.send_offset_request`
(the message carries only the code). -/
def send_offset_request_check : (Int → Option String) → Bool →
    List Response → Except FacadeErr (List Response) :=
  check_responses false

/-- Response checking of `KafkaClient.send_offset_commit_request`
(the message carries only the code). -/
def send_offset_commit_request_check : (Int → Option String) → Bool →
    List Response → Except FacadeErr (List Response) :=
  check_responses false

/-- Response checking of `KafkaClient.send_offset_fetch_request`
(the message carries only the code). -/
def send_offset_fetch_request_check : (Int → Option String) → Bool →
    List Response → Except FacadeErr (List Response) :=
  check_responses false

/-- `KafkaClient.send_produce_request`: decoder absent exactly when
`acks = 0`, then the produce response check. -/
def send_produce_request (fuel : Nat) (ctx : LoadCtx) (payloads : List Payload)
    (acks : Nat) (exchange : BrokerMetadata → List Payload → Option (List Response))
    (fail_on_error : Bool) (errmap : Int → Option String) :
    LoadCtx × Except FacadeErr (List Response) :=
  match send_broker_aware_request fuel ctx payloads (acks != 0) exchange with
  | ⟨ctx1, _, .error e⟩ => (ctx1, .error (.send e))
  | ⟨ctx1, _, .ok rs⟩ => (ctx1, send_produce_request_check errmap fail_on_error rs)

/-- The spec's ClusterView invariant (conditions on the stored state):
every key of `topics_to_brokers` has its partition in that topic's entry
of `topic_partitions`, and the referenced broker's id is a key of
`brokers`. -/
def cluster_invariant (st : ClientState) : Bool :=
  st.topics_to_brokers.all fun kb =>
    ((alookup st.topic_partitions kb.1.topic).getD []).contains kb.1.partition
      && (alookup st.brokers kb.2.nodeId).isSome

/-- Pure mirror of the grouping performed by `_group_request` when every
payload's key is already cached (so no refresh happens). -/
def group_pure (t2b : List (TopicAndPartition × BrokerMetadata)) :
    List (BrokerMetadata × List Payload) → List Payload →
    List (BrokerMetadata × List Payload)
  | gs, [] => gs
  | gs, p :: rest =>
    group_pure t2b
      (group_insert gs ((alookup t2b ⟨p.topic, p.partition⟩).getD default) p) rest

/-- The payloads of the leader groups whose exchange fails, concatenated
in group order. -/
def failed_pure (exchange : BrokerMetadata → List Payload → Option (List Response)) :
    List (BrokerMetadata × List Payload) → List Payload
  | [] => []
  | (b, ps) :: rest =>
    (if (exchange b ps).isNone then ps else []) ++ failed_pure exchange rest

/-- The accumulator map built by the dispatch loop, as a pure fold. -/
def acc_pure (exchange : BrokerMetadata → List Payload → Option (List Response))
    (hasDecoder : Bool) : List ((String × Nat) × Response) →
    List (BrokerMetadata × List Payload) → List ((String × Nat) × Response)
  | a, [] => a
  | a, (b, ps) :: rest =>
    match exchange b ps with
    | none => acc_pure exchange hasDecoder a rest
    | some rs =>
      acc_pure exchange hasDecoder
        (if hasDecoder then rs.foldl (fun a r => ainsert a (r.topic, r.partition) r) a
         else a) rest

/-- A partition map that triggers no retry and no `KeyError` during a
refresh: no partition reports the leader-absent sentinel and every
reported leader id is in the broker map. -/
def clean_parts (bs : List (Int × BrokerMetadata))
    (parts : List (Nat × PartitionMetadata)) : Bool :=
  parts.all fun pm => pm.2.leader != -1 && (alookup bs pm.2.leader).isSome

/-- A decoded topic list that triggers no retry and no `KeyError` during a
refresh: every topic has at least one partition and a clean partition
map. -/
def clean_topics (bs : List (Int × BrokerMetadata))
    (items : List (String × List (Nat × PartitionMetadata))) : Bool :=
  items.all fun tp => !tp.2.isEmpty && clean_parts bs tp.2

/-- A well-formed broker map: each entry's `BrokerMetadata` carries the id
it is keyed by. -/
def wf_brokers (bs : List (Int × BrokerMetadata)) : Bool :=
  bs.all fun ib => ib.2.nodeId == ib.1

/-- A cached leader lookup hit returns the cached broker and leaves the
context (so also the request log) untouched. -/
theorem get_leader_hit (fuel : Nat) (ctx : LoadCtx) (t : String) (p : Nat)
    (b : BrokerMetadata) (h : alookup ctx.st.topics_to_brokers ⟨t, p⟩ = some b) :
    get_leader_for_partition fuel ctx t p = ⟨ctx, .ok b⟩ := by
  simp [get_leader_for_partition, h]

/-- When every payload's key is cached, grouping is pure: the context is
unchanged, the recorded keys are the payload keys in input order, and the
groups are `group_pure`. -/
theorem group_request_go_cached (fuel : Nat) (payloads : List Payload) :
    ∀ (ctx : LoadCtx) (ks : List (String × Nat)) (gs : List (BrokerMetadata × List Payload)),
      (∀ p ∈ payloads, (alookup ctx.st.topics_to_brokers ⟨p.topic, p.partition⟩).isSome) →
      group_request_go fuel ctx ks gs payloads =
        ⟨ctx, .ok (ks ++ payloads.map (fun p => (p.topic, p.partition)),
          group_pure ctx.st.topics_to_brokers gs payloads)⟩ := by
  induction payloads with
  | nil => intro ctx ks gs _; simp [group_request_go, group_pure]
  | cons p rest ih =>
    intro ctx ks gs h
    obtain ⟨b, hb⟩ := Option.isSome_iff_exists.mp (h p (by simp))
    rw [group_request_go, get_leader_hit fuel ctx p.topic p.partition b hb]
    show group_request_go fuel ctx (ks ++ [(p.topic, p.partition)]) (group_insert gs b p) rest = _
    rw [ih ctx _ _ (fun q hq => h q (List.mem_cons_of_mem _ hq))]
    simp [group_pure, hb]

/-- The dispatch loop, characterized: brokers and partition lists are
untouched; the leader map is emptied exactly when some group's exchange
fails; every group is contacted in order; the failed payloads and the
accumulator are the pure folds. -/
theorem dispatch_groups_spec
    (exchange : BrokerMetadata → List Payload → Option (List Response)) (hd : Bool)
    (gs : List (BrokerMetadata × List Payload)) :
    ∀ (st : ClientState) (c : List BrokerMetadata) (f : List Payload)
      (a : List ((String × Nat) × Response)),
      dispatch_groups exchange hd gs st c f a =
        ⟨{ st with topics_to_brokers :=
            if gs.any (fun g => (exchange g.1 g.2).isNone) then []
            else st.topics_to_brokers },
          c ++ gs.map Prod.fst, f ++ failed_pure exchange gs, acc_pure exchange hd a gs⟩ := by
  induction gs with
  | nil => intro st c f a; simp [dispatch_groups, failed_pure, acc_pure]
  | cons g rest ih =>
    intro st c f a
    obtain ⟨b, ps⟩ := g
    cases hx : exchange b ps with
    | none => simp [dispatch_groups, hx, ih, failed_pure, acc_pure, ite_self]
    | some rs =>
      simp only [dispatch_groups, hx, ih, failed_pure, acc_pure, List.any_cons,
        Option.isNone_some, Bool.false_or]
      simp

/-- If the exchange oracle never fails then no payload fails. -/
theorem failed_pure_eq_nil
    (exchange : BrokerMetadata → List Payload → Option (List Response))
    (gs : List (BrokerMetadata × List Payload))
    (h : ∀ b ps, (exchange b ps).isSome) : failed_pure exchange gs = [] := by
  induction gs with
  | nil => rfl
  | cons g rest ih =>
    cases hx : exchange g.1 g.2 with
    | none => have := h g.1 g.2; rw [hx] at this; simp at this
    | some rs => simp [failed_pure, hx, ih]

/-- Every payload of a failed group is recorded among the failed
payloads. -/
theorem failed_pure_mem
    (exchange : BrokerMetadata → List Payload → Option (List Response))
    (gs : List (BrokerMetadata × List Payload)) (g : BrokerMetadata × List Payload)
    (hg : g ∈ gs) (hfail : exchange g.1 g.2 = none) :
    ∀ p ∈ g.2, p ∈ failed_pure exchange gs := by
  induction gs with
  | nil => simp at hg
  | cons g0 rest ih =>
    intro p hp
    rcases List.mem_cons.mp hg with h0 | h0
    · subst h0
      simp [failed_pure, hfail, hp]
    · have := ih h0 p hp
      simp [failed_pure, this]

/-- If some nonempty group fails, the failed-payload list is nonempty. -/
theorem failed_pure_ne_nil
    (exchange : BrokerMetadata → List Payload → Option (List Response))
    (gs : List (BrokerMetadata × List Payload)) (g : BrokerMetadata × List Payload)
    (hg : g ∈ gs) (hfail : exchange g.1 g.2 = none) (hne : g.2 ≠ []) :
    failed_pure exchange gs ≠ [] := by
  obtain ⟨p, hp⟩ := List.exists_mem_of_ne_nil g.2 hne
  exact List.ne_nil_of_mem (failed_pure_mem exchange gs g hg hfail p hp)

/-- `group_insert` preserves per-group nonemptiness. -/
theorem group_insert_snd_ne_nil (gs : List (BrokerMetadata × List Payload))
    (b : BrokerMetadata) (p : Payload) (h : ∀ g ∈ gs, g.2 ≠ []) :
    ∀ g ∈ group_insert gs b p, g.2 ≠ [] := by
  induction gs with
  | nil =>
    intro g hg
    simp [group_insert] at hg
    simp [hg]
  | cons g0 rest ih =>
    intro g hg
    obtain ⟨k, ps⟩ := g0
    by_cases hk : k = b
    · simp only [group_insert, if_pos hk] at hg
      rcases List.mem_cons.mp hg with h0 | h0
      · simp [h0]
      · exact h g (List.mem_cons_of_mem _ h0)
    · simp only [group_insert, if_neg hk] at hg
      rcases List.mem_cons.mp hg with h0 | h0
      · exact h g (h0 ▸ List.mem_cons_self _ _)
      · exact ih (fun g' hg' => h g' (List.mem_cons_of_mem _ hg')) g h0

/-- Every group produced by pure grouping carries at least one payload. -/
theorem group_pure_snd_ne_nil (t2b : List (TopicAndPartition × BrokerMetadata))
    (payloads : List Payload) :
    ∀ gs, (∀ g ∈ gs, g.2 ≠ []) → ∀ g ∈ group_pure t2b gs payloads, g.2 ≠ [] := by
  induction payloads with
  | nil => intro gs h; simpa [group_pure] using h
  | cons p rest ih =>
    intro gs h
    exact ih _ (group_insert_snd_ne_nil gs _ p h)

/-- Consuming the response generator succeeds when every key is in the
accumulator, and yields the accumulated response of each key in order. -/
theorem collect_ok (acc : List ((String × Nat) × Response)) (ks : List (String × Nat))
    (h : ∀ k ∈ ks, (alookup acc k).isSome) :
    collect acc ks = .ok (ks.map fun k => (alookup acc k).getD default) := by
  induction ks with
  | nil => simp [collect]
  | cons k rest ih =>
    obtain ⟨r, hr⟩ := Option.isSome_iff_exists.mp (h k (by simp))
    rw [collect, hr, ih (fun x hx => h x (List.mem_cons_of_mem _ hx))]
    simp [hr]

/-- Consuming the response generator raises `KeyError` when some key is
missing from the accumulator. -/
theorem collect_err (acc : List ((String × Nat) × Response)) (ks : List (String × Nat))
    (h : ∃ k ∈ ks, alookup acc k = none) :
    ∃ k, collect acc ks = .error k := by
  induction ks with
  | nil => simp at h
  | cons k rest ih =>
    cases hk : alookup acc k with
    | none => exact ⟨k, by simp [collect, hk]⟩
    | some r =>
      obtain ⟨k0, hk0, hk0n⟩ := h
      rcases List.mem_cons.mp hk0 with h0 | h0
      · rw [h0, hk] at hk0n; cases hk0n
      · obtain ⟨k2, hk2⟩ := ih ⟨k0, h0, hk0n⟩
        exact ⟨k2, by simp [collect, hk, hk2]⟩

/-- In strict mode, the first response with a non-zero error code raises
the mapped exception class. -/
theorem check_responses_strict_first (carryTP : Bool) (em : Int → Option String)
    (pre : List Response) (r : Response) (post : List Response)
    (hpre : ∀ x ∈ pre, x.error = 0) (hr : r.error ≠ 0) :
    check_responses carryTP em true (pre ++ r :: post) =
      .error (.protocolError ((em r.error).getD "UnknownException")
        (if carryTP then some (r.topic, r.partition) else none) r.error) := by
  induction pre with
  | nil => simp [check_responses, hr]
  | cons x rest ih =>
    have hx : x.error = 0 := hpre x (List.mem_cons_self _ _)
    have ih2 := ih (fun y hy => hpre y (List.mem_cons_of_mem _ hy))
    simp [check_responses, hx, ih2]

/-- In lenient mode every response is passed through unfiltered. -/
theorem check_responses_lenient (carryTP : Bool) (em : Int → Option String)
    (rs : List Response) : check_responses carryTP em false rs = .ok rs := by
  induction rs with
  | nil => rfl
  | cons r rest ih => simp [check_responses, ih]

/-- Full characterization of `_send_broker_aware_request` when every
payload's key is already cached (so leader resolution is pure). -/
theorem send_broker_aware_cached (fuel : Nat) (ctx : LoadCtx) (payloads : List Payload)
    (hd : Bool) (exchange : BrokerMetadata → List Payload → Option (List Response))
    (hcache : ∀ p ∈ payloads,
      (alookup ctx.st.topics_to_brokers ⟨p.topic, p.partition⟩).isSome) :
    send_broker_aware_request fuel ctx payloads hd exchange =
      ⟨{ ctx with st := { ctx.st with topics_to_brokers :=
          if ((group_pure ctx.st.topics_to_brokers [] payloads).any
              fun g => (exchange g.1 g.2).isNone) then []
          else ctx.st.topics_to_brokers } },
        (group_pure ctx.st.topics_to_brokers [] payloads).map Prod.fst,
        if (failed_pure exchange (group_pure ctx.st.topics_to_brokers [] payloads)).isEmpty then
          if (acc_pure exchange hd []
              (group_pure ctx.st.topics_to_brokers [] payloads)).isEmpty then .ok []
          else
            match collect
                (acc_pure exchange hd [] (group_pure ctx.st.topics_to_brokers [] payloads))
                (payloads.map fun p => (p.topic, p.partition)) with
            | .ok rs => .ok rs
            | .error k => .error (.keyError k)
        else .error (.failedPayloads
          (failed_pure exchange (group_pure ctx.st.topics_to_brokers [] payloads)))⟩ := by
  simp only [send_broker_aware_request, group_request]
  rw [group_request_go_cached fuel payloads ctx [] [] hcache]
  simp only [List.nil_append]
  rw [dispatch_groups_spec]
  simp only [List.nil_append]
  by_cases h1 : (failed_pure exchange (group_pure ctx.st.topics_to_brokers [] payloads)).isEmpty
  · simp only [h1, if_true]
    by_cases h2 :
        (acc_pure exchange hd [] (group_pure ctx.st.topics_to_brokers [] payloads)).isEmpty
    · simp [h2]
    · simp only [h2, Bool.false_eq_true, if_false]
      cases hc : collect
          (acc_pure exchange hd [] (group_pure ctx.st.topics_to_brokers [] payloads))
          (payloads.map fun p => (p.topic, p.partition)) with
      | ok rs => simp [hc]
      | error k => simp [hc]
  · simp [h1]

/-- C1: for a broker-aware send whose payload keys are all cached, with a
decoder supplied, no transport failure, and a decoded response present for
every payload key, the returned sequence has one response per input
payload, and the i-th response is the accumulated response for the i-th
payload's (topic, partition) key — so output order equals input key order
and duplicate keys each contribute at their own position. -/
theorem send_broker_aware_order (fuel : Nat) (ctx : LoadCtx) (payloads : List Payload)
    (exchange : BrokerMetadata → List Payload → Option (List Response))
    (hcache : ∀ p ∈ payloads,
      (alookup ctx.st.topics_to_brokers ⟨p.topic, p.partition⟩).isSome)
    (hok : ∀ b ps, (exchange b ps).isSome)
    (hcover : ∀ p ∈ payloads,
      (alookup (acc_pure exchange true [] (group_pure ctx.st.topics_to_brokers [] payloads))
        (p.topic, p.partition)).isSome) :
    ∃ rs, (send_broker_aware_request fuel ctx payloads true exchange).res = .ok rs ∧
      rs.length = payloads.length ∧
      rs = payloads.map fun p =>
        (alookup (acc_pure exchange true [] (group_pure ctx.st.topics_to_brokers [] payloads))
          (p.topic, p.partition)).getD default := by
  have hch := send_broker_aware_cached fuel ctx payloads true exchange hcache
  have hfp : failed_pure exchange (group_pure ctx.st.topics_to_brokers [] payloads) = [] :=
    failed_pure_eq_nil _ _ hok
  by_cases he :
      (acc_pure exchange true [] (group_pure ctx.st.topics_to_brokers [] payloads)).isEmpty
  · have hpe : payloads = [] := by
      cases hps : payloads with
      | nil => rfl
      | cons p r =>
        have hcov := hcover p (by simp [hps])
        rw [List.isEmpty_iff.mp he] at hcov
        simp [alookup] at hcov
    subst hpe
    exact ⟨[], by rw [hch]; simp [hfp, he], by simp, by simp⟩
  · refine ⟨(payloads.map fun p => (p.topic, p.partition)).map
      (fun k => (alookup (acc_pure exchange true []
        (group_pure ctx.st.topics_to_brokers [] payloads)) k).getD default), ?_, ?_, ?_⟩
    · rw [hch]
      simp only [hfp, List.isEmpty_nil, if_true, he, if_false]
      rw [collect_ok _ _ (by
        intro k hk
        obtain ⟨p, hp, hpk⟩ := List.mem_map.mp hk
        exact hpk ▸ hcover p hp)]
      simp
    · simp
    · simp [List.map_map]

/-- C2: if at least one leader group's exchange fails, the broker-aware
send fails with `FailedPayloadsException` carrying exactly the
concatenation of the payloads of the failed leader groups, instead of
returning any decoded responses. -/
theorem send_broker_aware_partial_failure (fuel : Nat) (ctx : LoadCtx)
    (payloads : List Payload) (hd : Bool)
    (exchange : BrokerMetadata → List Payload → Option (List Response))
    (hcache : ∀ p ∈ payloads,
      (alookup ctx.st.topics_to_brokers ⟨p.topic, p.partition⟩).isSome)
    (hfail : ∃ g ∈ group_pure ctx.st.topics_to_brokers [] payloads,
      exchange g.1 g.2 = none) :
    (send_broker_aware_request fuel ctx payloads hd exchange).res =
      .error (.failedPayloads
        (failed_pure exchange (group_pure ctx.st.topics_to_brokers [] payloads))) := by
  have hch := send_broker_aware_cached fuel ctx payloads hd exchange hcache
  obtain ⟨g, hg, hgf⟩ := hfail
  have hne : g.2 ≠ [] :=
    group_pure_snd_ne_nil ctx.st.topics_to_brokers payloads [] (by simp) g hg
  have hfp : failed_pure exchange (group_pure ctx.st.topics_to_brokers [] payloads) ≠ [] :=
    failed_pure_ne_nil exchange _ g hg hgf hne
  rw [hch]
  simp [List.isEmpty_iff, hfp]

/-- C4: a transport failure on one leader group records that whole group's
payloads as failed, empties the partition-to-leader cache (leaving the
broker map and partition lists untouched), and still dispatches to every
leader group. -/
theorem send_broker_aware_failure_effects (fuel : Nat) (ctx : LoadCtx)
    (payloads : List Payload) (hd : Bool)
    (exchange : BrokerMetadata → List Payload → Option (List Response))
    (g : BrokerMetadata × List Payload)
    (hcache : ∀ p ∈ payloads,
      (alookup ctx.st.topics_to_brokers ⟨p.topic, p.partition⟩).isSome)
    (hg : g ∈ group_pure ctx.st.topics_to_brokers [] payloads)
    (hgf : exchange g.1 g.2 = none) :
    (∃ fps, (send_broker_aware_request fuel ctx payloads hd exchange).res =
        .error (.failedPayloads fps) ∧ ∀ p ∈ g.2, p ∈ fps) ∧
      (send_broker_aware_request fuel ctx payloads hd exchange).ctx.st.topics_to_brokers
        = [] ∧
      (send_broker_aware_request fuel ctx payloads hd exchange).ctx.st.brokers
        = ctx.st.brokers ∧
      (send_broker_aware_request fuel ctx payloads hd exchange).ctx.st.topic_partitions
        = ctx.st.topic_partitions ∧
      (send_broker_aware_request fuel ctx payloads hd exchange).contacted
        = (group_pure ctx.st.topics_to_brokers [] payloads).map Prod.fst := by
  have hch := send_broker_aware_cached fuel ctx payloads hd exchange hcache
  have hany : (group_pure ctx.st.topics_to_brokers [] payloads).any
      (fun g => (exchange g.1 g.2).isNone) = true :=
    List.any_eq_true.mpr ⟨g, hg, by simp [hgf]⟩
  have hne : g.2 ≠ [] :=
    group_pure_snd_ne_nil ctx.st.topics_to_brokers payloads [] (by simp) g hg
  have hfp : failed_pure exchange (group_pure ctx.st.topics_to_brokers [] payloads) ≠ [] :=
    failed_pure_ne_nil exchange _ g hg hgf hne
  refine ⟨⟨failed_pure exchange (group_pure ctx.st.topics_to_brokers [] payloads),
      ?_, failed_pure_mem exchange _ g hg hgf⟩, ?_, ?_, ?_, ?_⟩ <;>
    rw [hch] <;> simp [List.isEmpty_iff, hfp, hany]

/-- C10: with a decoder supplied and no transport failure, if the decoded
responses are non-empty but miss some payload key, consuming the returned
sequence raises `KeyError`; if nothing at all was decoded, the call
returns the empty sequence rather than an error. -/
theorem send_broker_aware_missing_key (fuel : Nat) (ctx : LoadCtx)
    (payloads : List Payload)
    (exchange : BrokerMetadata → List Payload → Option (List Response))
    (hcache : ∀ p ∈ payloads,
      (alookup ctx.st.topics_to_brokers ⟨p.topic, p.partition⟩).isSome)
    (hok : ∀ b ps, (exchange b ps).isSome) :
    ((acc_pure exchange true [] (group_pure ctx.st.topics_to_brokers [] payloads) ≠ [] ∧
        ∃ p ∈ payloads,
          alookup (acc_pure exchange true []
            (group_pure ctx.st.topics_to_brokers [] payloads)) (p.topic, p.partition) = none) →
      ∃ k, (send_broker_aware_request fuel ctx payloads true exchange).res =
        .error (.keyError k)) ∧
    (acc_pure exchange true [] (group_pure ctx.st.topics_to_brokers [] payloads) = [] →
      (send_broker_aware_request fuel ctx payloads true exchange).res = .ok []) := by
  have hch := send_broker_aware_cached fuel ctx payloads true exchange hcache
  have hfp : failed_pure exchange (group_pure ctx.st.topics_to_brokers [] payloads) = [] :=
    failed_pure_eq_nil _ _ hok
  constructor
  · rintro ⟨hne, p, hp, hmiss⟩
    obtain ⟨k, hk⟩ := collect_err
      (acc_pure exchange true [] (group_pure ctx.st.topics_to_brokers [] payloads))
      (payloads.map fun p => (p.topic, p.partition))
      ⟨(p.topic, p.partition), List.mem_map.mpr ⟨p, hp, rfl⟩, hmiss⟩
    refine ⟨k, ?_⟩
    rw [hch]
    simp only [hfp, List.isEmpty_nil, if_true]
    rw [if_neg (by simp [List.isEmpty_iff, hne]), hk]
  · intro hnil
    rw [hch]
    simp [hfp, hnil]

/-- C8 counterexample: in strict mode the offset facade's failure carries
only the error code — the (topic, partition) slot of the raised error is
`none`, not the offending key `("t", 0)`. -/
theorem send_offset_check_no_topic_partition :
    send_offset_request_check (fun _ => none) true [⟨"t", 0, 1, 0⟩] =
      .error (.protocolError "UnknownException" none 1) := by
  rfl

/-- C8 (amended): in strict mode, the first response with a non-zero error
code makes each facade fail with the exception class looked up in the
error-code table (falling back to `UnknownException`), carrying the code;
the produce and fetch facades additionally carry the offending
(topic, partition), while the offset, offset-commit and offset-fetch
facades carry only the code; in lenient mode every facade returns all
responses unfiltered. -/
theorem facade_error_code_handling (em : Int → Option String)
    (pre : List Response) (r : Response) (post : List Response) (rs : List Response)
    (hpre : ∀ x ∈ pre, x.error = 0) (hr : r.error ≠ 0) :
    (send_produce_request_check em true (pre ++ r :: post) =
      .error (.protocolError ((em r.error).getD "UnknownException")
        (some (r.topic, r.partition)) r.error)) ∧
    (send_fetch_request_check em true (pre ++ r :: post) =
      .error (.protocolError ((em r.error).getD "UnknownException")
        (some (r.topic, r.partition)) r.error)) ∧
    (send_offset_request_check em true (pre ++ r :: post) =
      .error (.protocolError ((em r.error).getD "UnknownException") none r.error)) ∧
    (send_offset_commit_request_check em true (pre ++ r :: post) =
      .error (.protocolError ((em r.error).getD "UnknownException") none r.error)) ∧
    (send_offset_fetch_request_check em true (pre ++ r :: post) =
      .error (.protocolError ((em r.error).getD "UnknownException") none r.error)) ∧
    (send_produce_request_check em false rs = .ok rs) ∧
    (send_fetch_request_check em false rs = .ok rs) ∧
    (send_offset_request_check em false rs = .ok rs) ∧
    (send_offset_commit_request_check em false rs = .ok rs) ∧
    (send_offset_fetch_request_check em false rs = .ok rs) := by
  refine ⟨?_, ?_, ?_, ?_, ?_, ?_, ?_, ?_, ?_, ?_⟩ <;>
    first
      | simpa using check_responses_strict_first true em pre r post hpre hr
      | simpa using check_responses_strict_first false em pre r post hpre hr
      | exact check_responses_lenient true em rs
      | exact check_responses_lenient false em rs

/-- Witness for C1: three payloads over two leaders, the duplicate key at
positions 0 and 2, echo responses. -/
theorem send_broker_aware_order_witness :
    ∃ rs, (send_broker_aware_request 1
        ⟨⟨[(1, ⟨1, "A", 1⟩), (2, ⟨2, "B", 2⟩)],
          [(⟨"t", 0⟩, ⟨1, "A", 1⟩), (⟨"t", 1⟩, ⟨2, "B", 2⟩)], [("t", [0, 1])]⟩, [], [], 0⟩
        [⟨"t", 0, 10⟩, ⟨"t", 1, 11⟩, ⟨"t", 0, 12⟩] true
        (fun _ ps => some (ps.map fun p => ⟨p.topic, p.partition, 0, p.tag⟩))).res
          = .ok rs ∧
      rs.length = 3 ∧
      rs = [⟨"t", 0, 0, 12⟩, ⟨"t", 1, 0, 11⟩, ⟨"t", 0, 0, 12⟩] :=
  send_broker_aware_order 1
    ⟨⟨[(1, ⟨1, "A", 1⟩), (2, ⟨2, "B", 2⟩)],
      [(⟨"t", 0⟩, ⟨1, "A", 1⟩), (⟨"t", 1⟩, ⟨2, "B", 2⟩)], [("t", [0, 1])]⟩, [], [], 0⟩
    [⟨"t", 0, 10⟩, ⟨"t", 1, 11⟩, ⟨"t", 0, 12⟩]
    (fun _ ps => some (ps.map fun p => ⟨p.topic, p.partition, 0, p.tag⟩))
    (by decide) (fun _ _ => rfl) (by decide)

/-- Witness for C2: the second leader's exchange fails, so the call raises
`FailedPayloadsException` with exactly that group's payloads. -/
theorem send_broker_aware_partial_failure_witness :
    (send_broker_aware_request 1
        ⟨⟨[(1, ⟨1, "A", 1⟩), (2, ⟨2, "B", 2⟩)],
          [(⟨"t", 0⟩, ⟨1, "A", 1⟩), (⟨"t", 1⟩, ⟨2, "B", 2⟩)], [("t", [0, 1])]⟩, [], [], 0⟩
        [⟨"t", 0, 10⟩, ⟨"t", 1, 11⟩, ⟨"t", 0, 12⟩] true
        (fun b _ => if b.nodeId = 2 then none else some [])).res =
      .error (.failedPayloads [⟨"t", 1, 11⟩]) :=
  send_broker_aware_partial_failure 1
    ⟨⟨[(1, ⟨1, "A", 1⟩), (2, ⟨2, "B", 2⟩)],
      [(⟨"t", 0⟩, ⟨1, "A", 1⟩), (⟨"t", 1⟩, ⟨2, "B", 2⟩)], [("t", [0, 1])]⟩, [], [], 0⟩
    [⟨"t", 0, 10⟩, ⟨"t", 1, 11⟩, ⟨"t", 0, 12⟩] true
    (fun b _ => if b.nodeId = 2 then none else some [])
    (by decide) (by decide)

/-- Witness for C4: one leader fails, the cache is emptied, both leaders
are still contacted, brokers and partition lists are untouched. -/
theorem send_broker_aware_failure_effects_witness :
    (∃ fps, (send_broker_aware_request 1
        ⟨⟨[(1, ⟨1, "A", 1⟩), (2, ⟨2, "B", 2⟩)],
          [(⟨"t", 0⟩, ⟨1, "A", 1⟩), (⟨"t", 1⟩, ⟨2, "B", 2⟩)], [("t", [0, 1])]⟩, [], [], 0⟩
        [⟨"t", 0, 10⟩, ⟨"t", 1, 11⟩, ⟨"t", 0, 12⟩] true
        (fun b _ => if b.nodeId = 2 then none else some [])).res =
          .error (.failedPayloads fps) ∧
        ∀ p ∈ [(⟨"t", 1, 11⟩ : Payload)], p ∈ fps) ∧
      (send_broker_aware_request 1
        ⟨⟨[(1, ⟨1, "A", 1⟩), (2, ⟨2, "B", 2⟩)],
          [(⟨"t", 0⟩, ⟨1, "A", 1⟩), (⟨"t", 1⟩, ⟨2, "B", 2⟩)], [("t", [0, 1])]⟩, [], [], 0⟩
        [⟨"t", 0, 10⟩, ⟨"t", 1, 11⟩, ⟨"t", 0, 12⟩] true
        (fun b _ => if b.nodeId = 2 then none else some [])).ctx.st.topics_to_brokers
        = [] ∧
      (send_broker_aware_request 1
        ⟨⟨[(1, ⟨1, "A", 1⟩), (2, ⟨2, "B", 2⟩)],
          [(⟨"t", 0⟩, ⟨1, "A", 1⟩), (⟨"t", 1⟩, ⟨2, "B", 2⟩)], [("t", [0, 1])]⟩, [], [], 0⟩
        [⟨"t", 0, 10⟩, ⟨"t", 1, 11⟩, ⟨"t", 0, 12⟩] true
        (fun b _ => if b.nodeId = 2 then none else some [])).ctx.st.brokers
        = [(1, ⟨1, "A", 1⟩), (2, ⟨2, "B", 2⟩)] ∧
      (send_broker_aware_request 1
        ⟨⟨[(1, ⟨1, "A", 1⟩), (2, ⟨2, "B", 2⟩)],
          [(⟨"t", 0⟩, ⟨1, "A", 1⟩), (⟨"t", 1⟩, ⟨2, "B", 2⟩)], [("t", [0, 1])]⟩, [], [], 0⟩
        [⟨"t", 0, 10⟩, ⟨"t", 1, 11⟩, ⟨"t", 0, 12⟩] true
        (fun b _ => if b.nodeId = 2 then none else some [])).ctx.st.topic_partitions
        = [("t", [0, 1])] ∧
      (send_broker_aware_request 1
        ⟨⟨[(1, ⟨1, "A", 1⟩), (2, ⟨2, "B", 2⟩)],
          [(⟨"t", 0⟩, ⟨1, "A", 1⟩), (⟨"t", 1⟩, ⟨2, "B", 2⟩)], [("t", [0, 1])]⟩, [], [], 0⟩
        [⟨"t", 0, 10⟩, ⟨"t", 1, 11⟩, ⟨"t", 0, 12⟩] true
        (fun b _ => if b.nodeId = 2 then none else some [])).contacted
        = [⟨1, "A", 1⟩, ⟨2, "B", 2⟩] :=
  send_broker_aware_failure_effects 1
    ⟨⟨[(1, ⟨1, "A", 1⟩), (2, ⟨2, "B", 2⟩)],
      [(⟨"t", 0⟩, ⟨1, "A", 1⟩), (⟨"t", 1⟩, ⟨2, "B", 2⟩)], [("t", [0, 1])]⟩, [], [], 0⟩
    [⟨"t", 0, 10⟩, ⟨"t", 1, 11⟩, ⟨"t", 0, 12⟩] true
    (fun b _ => if b.nodeId = 2 then none else some [])
    (⟨2, "B", 2⟩, [⟨"t", 1, 11⟩])
    (by decide) (by decide) (by decide)

/-- Witness for C10: both exchanges succeed but only the first leader's
group yields responses, so the key of the second payload is missing and
consuming the result raises `KeyError`. -/
theorem send_broker_aware_missing_key_witness :
    ∃ k, (send_broker_aware_request 1
        ⟨⟨[(1, ⟨1, "A", 1⟩), (2, ⟨2, "B", 2⟩)],
          [(⟨"t", 0⟩, ⟨1, "A", 1⟩), (⟨"t", 1⟩, ⟨2, "B", 2⟩)], [("t", [0, 1])]⟩, [], [], 0⟩
        [⟨"t", 0, 10⟩, ⟨"t", 1, 11⟩, ⟨"t", 0, 12⟩] true
        (fun b ps =>
          if b.nodeId = 1 then some (ps.map fun p => ⟨p.topic, p.partition, 0, 0⟩)
          else some [])).res = .error (.keyError k) :=
  (send_broker_aware_missing_key 1
    ⟨⟨[(1, ⟨1, "A", 1⟩), (2, ⟨2, "B", 2⟩)],
      [(⟨"t", 0⟩, ⟨1, "A", 1⟩), (⟨"t", 1⟩, ⟨2, "B", 2⟩)], [("t", [0, 1])]⟩, [], [], 0⟩
    [⟨"t", 0, 10⟩, ⟨"t", 1, 11⟩, ⟨"t", 0, 12⟩]
    (fun b ps =>
      if b.nodeId = 1 then some (ps.map fun p => ⟨p.topic, p.partition, 0, 0⟩)
      else some [])
    (by decide)
    (by intro b ps; rcases eq_or_ne b.nodeId 1 with h | h <;> simp [h])).1
    (by decide)

/-- Witness for C8 (amended): a single offending response with code 1,
checked by all five facades in strict mode and a distinct list in lenient
mode. -/
theorem facade_error_code_handling_witness :
    (send_produce_request_check (fun _ => none) true [⟨"t", 0, 1, 0⟩] =
      .error (.protocolError "UnknownException" (some ("t", 0)) 1)) ∧
    (send_fetch_request_check (fun _ => none) true [⟨"t", 0, 1, 0⟩] =
      .error (.protocolError "UnknownException" (some ("t", 0)) 1)) ∧
    (send_offset_request_check (fun _ => none) true [⟨"t", 0, 1, 0⟩] =
      .error (.protocolError "UnknownException" none 1)) ∧
    (send_offset_commit_request_check (fun _ => none) true [⟨"t", 0, 1, 0⟩] =
      .error (.protocolError "UnknownException" none 1)) ∧
    (send_offset_fetch_request_check (fun _ => none) true [⟨"t", 0, 1, 0⟩] =
      .error (.protocolError "UnknownException" none 1)) ∧
    (send_produce_request_check (fun _ => none) false [⟨"u", 1, 2, 5⟩] =
      .ok [⟨"u", 1, 2, 5⟩]) ∧
    (send_fetch_request_check (fun _ => none) false [⟨"u", 1, 2, 5⟩] =
      .ok [⟨"u", 1, 2, 5⟩]) ∧
    (send_offset_request_check (fun _ => none) false [⟨"u", 1, 2, 5⟩] =
      .ok [⟨"u", 1, 2, 5⟩]) ∧
    (send_offset_commit_request_check (fun _ => none) false [⟨"u", 1, 2, 5⟩] =
      .ok [⟨"u", 1, 2, 5⟩]) ∧
    (send_offset_fetch_request_check (fun _ => none) false [⟨"u", 1, 2, 5⟩] =
      .ok [⟨"u", 1, 2, 5⟩]) :=
  facade_error_code_handling (fun _ => none) [] ⟨"t", 0, 1, 0⟩ [] [⟨"u", 1, 2, 5⟩]
    (by simp) (by decide)

/-- Members of an insert-or-overwrite: the new pair or an old member. -/
theorem mem_ainsert {α β : Type} [DecidableEq α] (l : List (α × β)) (k : α) (v : β) :
    ∀ x ∈ ainsert l k v, x = (k, v) ∨ x ∈ l := by
  induction l with
  | nil =>
    intro x hx
    simp [ainsert] at hx
    exact Or.inl hx
  | cons kv rest ih =>
    intro x hx
    obtain ⟨k0, v0⟩ := kv
    by_cases hk : k0 = k
    · simp only [ainsert, if_pos hk] at hx
      rcases List.mem_cons.mp hx with h | h
      · exact Or.inl h
      · exact Or.inr (List.mem_cons_of_mem _ h)
    · simp only [ainsert, if_neg hk] at hx
      rcases List.mem_cons.mp hx with h | h
      · exact Or.inr (h ▸ List.mem_cons_self _ _)
      · rcases ih x h with h2 | h2
        · exact Or.inl h2
        · exact Or.inr (List.mem_cons_of_mem _ h2)

/-- Lookup of the freshly inserted key. -/
theorem alookup_ainsert_self {α β : Type} [DecidableEq α] (l : List (α × β)) (k : α)
    (v : β) : alookup (ainsert l k v) k = some v := by
  induction l with
  | nil => simp [ainsert, alookup]
  | cons kv rest ih =>
    obtain ⟨k0, v0⟩ := kv
    by_cases hk : k0 = k
    · simp [ainsert, alookup, hk]
    · simp [ainsert, alookup, hk, ih]

/-- Lookup of another key is unchanged by an insert. -/
theorem alookup_ainsert_ne {α β : Type} [DecidableEq α] (l : List (α × β)) (k k' : α)
    (v : β) (h : k' ≠ k) : alookup (ainsert l k v) k' = alookup l k' := by
  induction l with
  | nil => simp [ainsert, alookup, Ne.symm h]
  | cons kv rest ih =>
    obtain ⟨k0, v0⟩ := kv
    by_cases hk : k0 = k
    · subst hk
      simp [ainsert, alookup, Ne.symm h]
    · by_cases hk' : k0 = k'
      · simp [ainsert, alookup, hk, hk', h]
      · simp [ainsert, alookup, hk, hk', ih]

/-- Lookup of another key is unchanged by a pop. -/
theorem alookup_apop_ne {α β : Type} [DecidableEq α] (l : List (α × β)) (k k' : α)
    (h : k' ≠ k) : alookup (apop l k) k' = alookup l k' := by
  induction l with
  | nil => simp [apop]
  | cons kv rest ih =>
    obtain ⟨k0, v0⟩ := kv
    by_cases hk : k0 = k
    · subst hk
      simp [apop, alookup, Ne.symm h, ih]
    · by_cases hk' : k0 = k'
      · simp [apop, alookup, hk, hk', h]
      · simp [apop, alookup, hk, hk', ih]

/-- A membership witnesses a successful lookup. -/
theorem alookup_isSome_of_mem {α β : Type} [DecidableEq α] (l : List (α × β)) (k : α)
    (v : β) (h : (k, v) ∈ l) : (alookup l k).isSome := by
  induction l with
  | nil => simp at h
  | cons kv rest ih =>
    obtain ⟨k0, v0⟩ := kv
    by_cases hk : k0 = k
    · simp [alookup, hk]
    · rcases List.mem_cons.mp h with h0 | h0
      · cases h0; simp at hk
      · simp [alookup, hk, ih h0]

/-- Lookup of another topic is unchanged by appending a partition. -/
theorem alookup_append_partition_ne (l : List (String × List Nat)) (t t' : String)
    (p : Nat) (h : t' ≠ t) :
    alookup (append_partition l t p) t' = alookup l t' := by
  induction l with
  | nil => simp [append_partition, alookup, Ne.symm h]
  | cons kv rest ih =>
    obtain ⟨k0, ps⟩ := kv
    by_cases hk : k0 = t
    · subst hk
      simp [append_partition, alookup, Ne.symm h]
    · by_cases hk' : k0 = t'
      · simp [append_partition, alookup, hk, hk', h]
      · simp [append_partition, alookup, hk, hk', ih]

/-- After appending partition `p` to topic `t`, the topic's list contains
`p`. -/
theorem append_partition_mem_self (l : List (String × List Nat)) (t : String)
    (p : Nat) : p ∈ (alookup (append_partition l t p) t).getD [] := by
  induction l with
  | nil => simp [append_partition, alookup]
  | cons kv rest ih =>
    obtain ⟨k0, ps⟩ := kv
    by_cases hk : k0 = t
    · simp [append_partition, alookup, hk]
    · simpa [append_partition, alookup, hk] using ih

/-- Appending a partition never removes a partition from any topic's
list. -/
theorem append_partition_mem_mono (l : List (String × List Nat)) (t t' : String)
    (p x : Nat) (h : x ∈ (alookup l t').getD []) :
    x ∈ (alookup (append_partition l t p) t').getD [] := by
  by_cases he : t' = t
  · subst he
    induction l with
    | nil => simp [alookup] at h
    | cons kv rest ih =>
      obtain ⟨k0, ps⟩ := kv
      by_cases hk : k0 = t'
      · simp [append_partition, alookup, hk] at h ⊢
        simp [h]
      · simp only [alookup, if_neg hk] at h
        simpa [append_partition, alookup, hk] using ih h
  · rw [alookup_append_partition_ne l t t' p he]
    exact h

/-- In a well-formed broker map, a looked-up broker carries the id it was
looked up by. -/
theorem wf_brokers_lookup (bs : List (Int × BrokerMetadata)) (i : Int)
    (b : BrokerMetadata) (hwf : wf_brokers bs = true) (h : alookup bs i = some b) :
    b.nodeId = i := by
  induction bs with
  | nil => simp [alookup] at h
  | cons ib rest ih =>
    obtain ⟨i0, b0⟩ := ib
    simp only [wf_brokers, List.all_cons, Bool.and_eq_true, beq_iff_eq] at hwf
    by_cases hk : i0 = i
    · simp [alookup, hk] at h
      subst h
      rw [hwf.1, hk]
    · simp only [alookup, if_neg hk] at h
      exact ih (by simp [wf_brokers, hwf.2]) h

/-- Processing a clean partition map: no retry (no request, no sleep, no
stream consumption), no error, brokers untouched, other topics' partition
lists untouched, and any new leader-map key belongs to this topic. -/
theorem process_partitions_clean (n : Nat) (bs : List (Int × BrokerMetadata))
    (topic : String) :
    ∀ (parts : List (Nat × PartitionMetadata)) (ctx : LoadCtx),
      clean_parts bs parts = true →
      (process_partitions n ctx bs topic parts).err = none ∧
      (process_partitions n ctx bs topic parts).ctx.stream = ctx.stream ∧
      (process_partitions n ctx bs topic parts).ctx.requests = ctx.requests ∧
      (process_partitions n ctx bs topic parts).ctx.sleeps = ctx.sleeps ∧
      (process_partitions n ctx bs topic parts).ctx.st.brokers = ctx.st.brokers ∧
      (∀ t, t ≠ topic →
        alookup (process_partitions n ctx bs topic parts).ctx.st.topic_partitions t =
          alookup ctx.st.topic_partitions t) ∧
      (∀ k : TopicAndPartition,
        (alookup (process_partitions n ctx bs topic parts).ctx.st.topics_to_brokers
          k).isSome →
        k.topic = topic ∨ (alookup ctx.st.topics_to_brokers k).isSome) := by
  intro parts
  induction parts with
  | nil =>
    intro ctx _
    have h0 : process_partitions n ctx bs topic [] = ⟨ctx, none⟩ := by
      simp only [process_partitions]
    rw [h0]
    exact ⟨rfl, rfl, rfl, rfl, rfl, fun t _ => rfl, fun k hk => Or.inr hk⟩
  | cons pm rest ih =>
    intro ctx hcl
    obtain ⟨prt, meta⟩ := pm
    simp only [clean_parts, List.all_cons, Bool.and_eq_true, bne_iff_ne] at hcl
    have hrest : clean_parts bs rest = true := by
      simp only [clean_parts]
      exact hcl.2
    obtain ⟨b, hb⟩ := Option.isSome_iff_exists.mp hcl.1.2
    have hstep : process_partitions n ctx bs topic ((prt, meta) :: rest) =
        process_partitions n
          { ctx with st := { ctx.st with
              topics_to_brokers := ainsert ctx.st.topics_to_brokers ⟨topic, prt⟩ b,
              topic_partitions := append_partition ctx.st.topic_partitions topic prt } }
          bs topic rest := by
      simp only [process_partitions]
      rw [if_neg hcl.1.1, hb]
    rw [hstep]
    obtain ⟨e1, e2, e3, e4, e5, e6, e7⟩ := ih _ hrest
    refine ⟨e1, by rw [e2], by rw [e3], by rw [e4], by rw [e5], ?_, ?_⟩
    · intro t ht
      rw [e6 t ht]
      exact alookup_append_partition_ne ctx.st.topic_partitions topic t prt ht
    · intro k hk
      rcases e7 k hk with h | h
      · exact Or.inl h
      · by_cases hkk : k = ⟨topic, prt⟩
        · exact Or.inl (by rw [hkk])
        · rw [alookup_ainsert_ne ctx.st.topics_to_brokers ⟨topic, prt⟩ k b hkk] at h
          exact Or.inr h

/-- Processing a clean topic list: no retry, no error, brokers untouched,
unreported topics' partition lists untouched, and every leader-map key
either belongs to a reported topic or was already present. -/
theorem process_topics_clean (n : Nat) (bs : List (Int × BrokerMetadata)) :
    ∀ (items : List (String × List (Nat × PartitionMetadata))) (ctx : LoadCtx),
      clean_topics bs items = true →
      (process_topics n ctx bs items).err = none ∧
      (process_topics n ctx bs items).ctx.stream = ctx.stream ∧
      (process_topics n ctx bs items).ctx.requests = ctx.requests ∧
      (process_topics n ctx bs items).ctx.sleeps = ctx.sleeps ∧
      (process_topics n ctx bs items).ctx.st.brokers = ctx.st.brokers ∧
      (∀ t, t ∉ items.map Prod.fst →
        alookup (process_topics n ctx bs items).ctx.st.topic_partitions t =
          alookup ctx.st.topic_partitions t) ∧
      (∀ k : TopicAndPartition,
        (alookup (process_topics n ctx bs items).ctx.st.topics_to_brokers k).isSome →
        k.topic ∈ items.map Prod.fst ∨ (alookup ctx.st.topics_to_brokers k).isSome) := by
  intro items
  induction items with
  | nil =>
    intro ctx _
    have h0 : process_topics n ctx bs [] = ⟨ctx, none⟩ := by
      simp only [process_topics]
    rw [h0]
    exact ⟨rfl, rfl, rfl, rfl, rfl, fun t _ => rfl, fun k hk => Or.inr hk⟩
  | cons item rest ih =>
    intro ctx hcl
    obtain ⟨topic, parts⟩ := item
    simp only [clean_topics, List.all_cons, Bool.and_eq_true] at hcl
    have hct : clean_topics bs rest = true := by
      simp only [clean_topics]
      exact hcl.2
    cases parts with
    | nil => exact absurd hcl.1.1 (by simp)
    | cons q qs =>
      obtain ⟨p1, p2, p3, p4, p5, p6, p7⟩ := process_partitions_clean n bs topic (q :: qs)
        { ctx with st := { ctx.st with
            topic_partitions := apop ctx.st.topic_partitions topic } } hcl.1.2
      have hpe : process_partitions n
          { ctx with st := { ctx.st with
              topic_partitions := apop ctx.st.topic_partitions topic } }
          bs topic (q :: qs) =
          ⟨(process_partitions n
            { ctx with st := { ctx.st with
                topic_partitions := apop ctx.st.topic_partitions topic } }
            bs topic (q :: qs)).ctx, none⟩ := by
        rw [← p1]
      have hstep : process_topics n ctx bs ((topic, q :: qs) :: rest) =
          process_topics n (process_partitions n
            { ctx with st := { ctx.st with
                topic_partitions := apop ctx.st.topic_partitions topic } }
            bs topic (q :: qs)).ctx bs rest := by
        simp only [process_topics]
        rw [hpe]
      rw [hstep]
      obtain ⟨e1, e2, e3, e4, e5, e6, e7⟩ := ih _ hct
      refine ⟨e1, by rw [e2, p2], by rw [e3, p3], by rw [e4, p4], by rw [e5, p5], ?_, ?_⟩
      · intro t ht
        have ht1 : t ≠ topic := by
          intro he
          exact ht (by simp [he])
        have ht2 : t ∉ rest.map Prod.fst := by
          intro he
          exact ht (by simp [he])
        rw [e6 t ht2, p6 t ht1]
        exact alookup_apop_ne ctx.st.topic_partitions topic t ht1
      · intro k hk
        rcases e7 k hk with h | h
        · exact Or.inl (by simp [h])
        · rcases p7 k h with h2 | h2
          · exact Or.inl (by simp [h2])
          · exact Or.inr h2

/-- One successful step of `_load_metadata_for_topics`: the request is
logged, the raw broker map replaces `self.brokers`, the leader map is
cleared, and the response's topics are processed. -/
theorem load_metadata_step (n : Nat) (ctx : LoadCtx) (ts : List String)
    (pools : Pools) (rest : List Pools) (resp : MetadataResponse)
    (hs : ctx.stream = pools :: rest)
    (hr : send_broker_unaware_request pools = some resp) :
    load_metadata_for_topics (n + 1) ctx ts =
      process_topics n
        { ctx with
          st := { ctx.st with brokers := resp.brokers, topics_to_brokers := [] },
          stream := rest, requests := ctx.requests ++ [ts] }
        resp.brokers resp.topics := by
  simp only [load_metadata_for_topics, hs, hr]

/-- A refresh whose broker-unaware request fails on every pool raises the
all-servers-failed error before touching any cache state. -/
theorem load_metadata_all_failed (n : Nat) (ctx : LoadCtx) (ts : List String)
    (pools : Pools) (rest : List Pools)
    (hs : ctx.stream = pools :: rest)
    (hfail : send_broker_unaware_request pools = none) :
    load_metadata_for_topics (n + 1) ctx ts =
      ⟨{ ctx with stream := rest, requests := ctx.requests ++ [ts] },
        some .allServersFailed⟩ := by
  simp only [load_metadata_for_topics, hs, hfail]

/-- The broker-unaware send is the first successful pool outcome in
registry iteration order. -/
theorem send_broker_unaware_eq_findSome (pools : Pools) :
    send_broker_unaware_request pools = pools.findSome? id := by
  induction pools with
  | nil => rfl
  | cons c rest ih =>
    cases c with
    | none => simpa [send_broker_unaware_request] using ih
    | some r => simp [send_broker_unaware_request]

/-- If every pool fails, the broker-unaware send returns nothing. -/
theorem send_broker_unaware_none (pools : Pools) (h : ∀ c ∈ pools, c = none) :
    send_broker_unaware_request pools = none := by
  induction pools with
  | nil => rfl
  | cons c rest ih =>
    have hc := h c (List.mem_cons_self _ _)
    subst hc
    simp only [send_broker_unaware_request]
    exact ih (fun x hx => h x (List.mem_cons_of_mem _ hx))

/-- C3: a leader lookup returns the cached BrokerMetadata without any
refresh when the key is cached; on a miss it performs exactly one
metadata refresh for that topic (here completing from one clean
response), re-checks, returns the refreshed leader if now present and
raises the partition-does-not-exist error if still absent. -/
theorem get_leader_cache_behavior (n : Nat) (ctx : LoadCtx) (t : String) (p : Nat)
    (pools : Pools) (rest : List Pools) (resp : MetadataResponse)
    (hs : ctx.stream = pools :: rest)
    (hr : send_broker_unaware_request pools = some resp)
    (hcl : clean_topics resp.brokers resp.topics = true) :
    (∀ b, alookup ctx.st.topics_to_brokers ⟨t, p⟩ = some b →
      get_leader_for_partition (n + 1) ctx t p = ⟨ctx, .ok b⟩) ∧
    (alookup ctx.st.topics_to_brokers ⟨t, p⟩ = none →
      (get_leader_for_partition (n + 1) ctx t p).ctx =
        (load_metadata_for_topics (n + 1) ctx [t]).ctx ∧
      (load_metadata_for_topics (n + 1) ctx [t]).ctx.requests =
        ctx.requests ++ [[t]] ∧
      (∀ b, alookup
          (load_metadata_for_topics (n + 1) ctx [t]).ctx.st.topics_to_brokers ⟨t, p⟩
          = some b →
        (get_leader_for_partition (n + 1) ctx t p).res = .ok b) ∧
      (alookup (load_metadata_for_topics (n + 1) ctx [t]).ctx.st.topics_to_brokers
          ⟨t, p⟩ = none →
        (get_leader_for_partition (n + 1) ctx t p).res =
          .error (.partitionDoesNotExist t p))) := by
  constructor
  · intro b hb
    exact get_leader_hit (n + 1) ctx t p b hb
  · intro hmiss
    have hstep := load_metadata_step n ctx [t] pools rest resp hs hr
    obtain ⟨e1, e2, e3, e4, e5, e6, e7⟩ :=
      process_topics_clean n resp.brokers resp.topics
        { ctx with
          st := { ctx.st with brokers := resp.brokers, topics_to_brokers := [] },
          stream := rest, requests := ctx.requests ++ [[t]] } hcl
    have herr : (load_metadata_for_topics (n + 1) ctx [t]).err = none := by
      rw [hstep]
      exact e1
    have heta : load_metadata_for_topics (n + 1) ctx [t] =
        ⟨(load_metadata_for_topics (n + 1) ctx [t]).ctx, none⟩ := by
      rw [← herr]
    have hreq : (load_metadata_for_topics (n + 1) ctx [t]).ctx.requests =
        ctx.requests ++ [[t]] := by
      rw [hstep]
      rw [e3]
    have hgl : get_leader_for_partition (n + 1) ctx t p =
        match alookup
            (load_metadata_for_topics (n + 1) ctx [t]).ctx.st.topics_to_brokers
            ⟨t, p⟩ with
        | none => ⟨(load_metadata_for_topics (n + 1) ctx [t]).ctx,
            .error (.partitionDoesNotExist t p)⟩
        | some b => ⟨(load_metadata_for_topics (n + 1) ctx [t]).ctx, .ok b⟩ := by
      simp only [get_leader_for_partition, hmiss]
      rw [heta]
    refine ⟨?_, hreq, ?_, ?_⟩
    · rw [hgl]
      cases alookup
          (load_metadata_for_topics (n + 1) ctx [t]).ctx.st.topics_to_brokers
          ⟨t, p⟩ <;> rfl
    · intro b hb
      rw [hgl, hb]
    · intro hnone
      rw [hgl, hnone]

/-- Witness for C3: a cached hit for ("t", 0) and a miss for ("u", 0)
against a clean single-response stream that reports topic "u". -/
theorem get_leader_cache_behavior_witness :
    (∀ b, alookup (⟨⟨[(1, ⟨1, "A", 1⟩)], [(⟨"t", 0⟩, ⟨1, "A", 1⟩)], [("t", [0])]⟩,
        [[some ⟨[(2, ⟨2, "B", 2⟩)], [("u", [(0, ⟨2⟩)])]⟩]], [], 0⟩ :
          LoadCtx).st.topics_to_brokers ⟨"u", 0⟩ = some b →
      get_leader_for_partition 3
        ⟨⟨[(1, ⟨1, "A", 1⟩)], [(⟨"t", 0⟩, ⟨1, "A", 1⟩)], [("t", [0])]⟩,
          [[some ⟨[(2, ⟨2, "B", 2⟩)], [("u", [(0, ⟨2⟩)])]⟩]], [], 0⟩ "u" 0 =
        ⟨⟨⟨[(1, ⟨1, "A", 1⟩)], [(⟨"t", 0⟩, ⟨1, "A", 1⟩)], [("t", [0])]⟩,
          [[some ⟨[(2, ⟨2, "B", 2⟩)], [("u", [(0, ⟨2⟩)])]⟩]], [], 0⟩, .ok b⟩) ∧
    (alookup (⟨⟨[(1, ⟨1, "A", 1⟩)], [(⟨"t", 0⟩, ⟨1, "A", 1⟩)], [("t", [0])]⟩,
        [[some ⟨[(2, ⟨2, "B", 2⟩)], [("u", [(0, ⟨2⟩)])]⟩]], [], 0⟩ :
          LoadCtx).st.topics_to_brokers ⟨"u", 0⟩ = none →
      (get_leader_for_partition 3
        ⟨⟨[(1, ⟨1, "A", 1⟩)], [(⟨"t", 0⟩, ⟨1, "A", 1⟩)], [("t", [0])]⟩,
          [[some ⟨[(2, ⟨2, "B", 2⟩)], [("u", [(0, ⟨2⟩)])]⟩]], [], 0⟩ "u" 0).ctx =
        (load_metadata_for_topics 3
          ⟨⟨[(1, ⟨1, "A", 1⟩)], [(⟨"t", 0⟩, ⟨1, "A", 1⟩)], [("t", [0])]⟩,
            [[some ⟨[(2, ⟨2, "B", 2⟩)], [("u", [(0, ⟨2⟩)])]⟩]], [], 0⟩ ["u"]).ctx ∧
      (load_metadata_for_topics 3
        ⟨⟨[(1, ⟨1, "A", 1⟩)], [(⟨"t", 0⟩, ⟨1, "A", 1⟩)], [("t", [0])]⟩,
          [[some ⟨[(2, ⟨2, "B", 2⟩)], [("u", [(0, ⟨2⟩)])]⟩]], [], 0⟩
        ["u"]).ctx.requests = [] ++ [["u"]] ∧
      (∀ b, alookup (load_metadata_for_topics 3
          ⟨⟨[(1, ⟨1, "A", 1⟩)], [(⟨"t", 0⟩, ⟨1, "A", 1⟩)], [("t", [0])]⟩,
            [[some ⟨[(2, ⟨2, "B", 2⟩)], [("u", [(0, ⟨2⟩)])]⟩]], [], 0⟩
          ["u"]).ctx.st.topics_to_brokers ⟨"u", 0⟩ = some b →
        (get_leader_for_partition 3
          ⟨⟨[(1, ⟨1, "A", 1⟩)], [(⟨"t", 0⟩, ⟨1, "A", 1⟩)], [("t", [0])]⟩,
            [[some ⟨[(2, ⟨2, "B", 2⟩)], [("u", [(0, ⟨2⟩)])]⟩]], [], 0⟩ "u" 0).res =
          .ok b) ∧
      (alookup (load_metadata_for_topics 3
          ⟨⟨[(1, ⟨1, "A", 1⟩)], [(⟨"t", 0⟩, ⟨1, "A", 1⟩)], [("t", [0])]⟩,
            [[some ⟨[(2, ⟨2, "B", 2⟩)], [("u", [(0, ⟨2⟩)])]⟩]], [], 0⟩
          ["u"]).ctx.st.topics_to_brokers ⟨"u", 0⟩ = none →
        (get_leader_for_partition 3
          ⟨⟨[(1, ⟨1, "A", 1⟩)], [(⟨"t", 0⟩, ⟨1, "A", 1⟩)], [("t", [0])]⟩,
            [[some ⟨[(2, ⟨2, "B", 2⟩)], [("u", [(0, ⟨2⟩)])]⟩]], [], 0⟩ "u" 0).res =
          .error (.partitionDoesNotExist "u" 0))) :=
  get_leader_cache_behavior 2
    ⟨⟨[(1, ⟨1, "A", 1⟩)], [(⟨"t", 0⟩, ⟨1, "A", 1⟩)], [("t", [0])]⟩,
      [[some ⟨[(2, ⟨2, "B", 2⟩)], [("u", [(0, ⟨2⟩)])]⟩]], [], 0⟩ "u" 0
    [some ⟨[(2, ⟨2, "B", 2⟩)], [("u", [(0, ⟨2⟩)])]⟩] []
    ⟨[(2, ⟨2, "B", 2⟩)], [("u", [(0, ⟨2⟩)])]⟩ rfl rfl (by decide)

/-- C7: the broker-unaware send tries each pool in registry iteration
order (returning the first success); when every pool fails, the enclosing
metadata refresh raises the all-servers-failed error and leaves the
broker map, leader map and partition lists exactly as they were. -/
theorem broker_unaware_order_and_refresh_failure (n : Nat) (ctx : LoadCtx)
    (ts : List String) (pools : Pools) (rest : List Pools)
    (hs : ctx.stream = pools :: rest)
    (hfail : ∀ c ∈ pools, c = none) :
    (∀ ps : Pools, send_broker_unaware_request ps = ps.findSome? id) ∧
    (load_metadata_for_topics (n + 1) ctx ts).err = some .allServersFailed ∧
    (load_metadata_for_topics (n + 1) ctx ts).ctx.st = ctx.st := by
  have hnone : send_broker_unaware_request pools = none :=
    send_broker_unaware_none pools hfail
  have hl := load_metadata_all_failed n ctx ts pools rest hs hnone
  exact ⟨send_broker_unaware_eq_findSome, by rw [hl], by rw [hl]⟩

/-- Witness for C7: two pools, both failing. -/
theorem broker_unaware_order_and_refresh_failure_witness :
    (∀ ps : Pools, send_broker_unaware_request ps = ps.findSome? id) ∧
    (load_metadata_for_topics 1
      ⟨⟨[(1, ⟨1, "A", 1⟩)], [(⟨"t", 0⟩, ⟨1, "A", 1⟩)], [("t", [0])]⟩,
        [[none, none]], [], 0⟩ ["x"]).err = some .allServersFailed ∧
    (load_metadata_for_topics 1
      ⟨⟨[(1, ⟨1, "A", 1⟩)], [(⟨"t", 0⟩, ⟨1, "A", 1⟩)], [("t", [0])]⟩,
        [[none, none]], [], 0⟩ ["x"]).ctx.st =
      ⟨[(1, ⟨1, "A", 1⟩)], [(⟨"t", 0⟩, ⟨1, "A", 1⟩)], [("t", [0])]⟩ :=
  broker_unaware_order_and_refresh_failure 0
    ⟨⟨[(1, ⟨1, "A", 1⟩)], [(⟨"t", 0⟩, ⟨1, "A", 1⟩)], [("t", [0])]⟩,
      [[none, none]], [], 0⟩ ["x"] [none, none] [] rfl (by decide)

/-- C5 counterexample: starting from a cache holding a leader mapping and
a partition list for topic "a", a refresh requesting (and receiving) only
topic "b" completes normally yet drops the leader mapping of the
unreported, unrequested topic "a" — it is not left unchanged. -/
theorem refresh_drops_unreported_leader_mapping :
    alookup (⟨⟨[(1, ⟨1, "A", 1⟩)], [(⟨"a", 0⟩, ⟨1, "A", 1⟩)], [("a", [0])]⟩,
      [[some ⟨[(2, ⟨2, "B", 2⟩)], [("b", [(0, ⟨2⟩)])]⟩]], [], 0⟩ :
        LoadCtx).st.topics_to_brokers ⟨"a", 0⟩ = some ⟨1, "A", 1⟩ ∧
    (load_metadata_for_topics 2
      ⟨⟨[(1, ⟨1, "A", 1⟩)], [(⟨"a", 0⟩, ⟨1, "A", 1⟩)], [("a", [0])]⟩,
        [[some ⟨[(2, ⟨2, "B", 2⟩)], [("b", [(0, ⟨2⟩)])]⟩]], [], 0⟩ ["b"]).err = none ∧
    alookup (load_metadata_for_topics 2
      ⟨⟨[(1, ⟨1, "A", 1⟩)], [(⟨"a", 0⟩, ⟨1, "A", 1⟩)], [("a", [0])]⟩,
        [[some ⟨[(2, ⟨2, "B", 2⟩)], [("b", [(0, ⟨2⟩)])]⟩]], [], 0⟩
      ["b"]).ctx.st.topics_to_brokers ⟨"a", 0⟩ = none := by
  refine ⟨rfl, ?_, ?_⟩ <;>
    simp [load_metadata_for_topics, process_topics, process_partitions,
      send_broker_unaware_request, alookup, ainsert, apop, append_partition]

/-- C5 (amended): a refresh that completes from a single clean metadata
response leaves the partition lists of topics not reported in the
response unchanged, but rebuilds the broker map and the topic-to-leader
map from scratch: after the refresh the leader map holds entries only for
reported topics, so mappings for unreported topics are dropped rather
than preserved. -/
theorem refresh_replaces_leader_map_wholesale (n : Nat) (ctx : LoadCtx)
    (ts : List String) (pools : Pools) (rest : List Pools) (resp : MetadataResponse)
    (hs : ctx.stream = pools :: rest)
    (hr : send_broker_unaware_request pools = some resp)
    (hcl : clean_topics resp.brokers resp.topics = true) :
    (∀ t, t ∉ resp.topics.map Prod.fst →
      alookup (load_metadata_for_topics (n + 1) ctx ts).ctx.st.topic_partitions t =
        alookup ctx.st.topic_partitions t) ∧
    (∀ k : TopicAndPartition, k.topic ∉ resp.topics.map Prod.fst →
      alookup (load_metadata_for_topics (n + 1) ctx ts).ctx.st.topics_to_brokers k
        = none) ∧
    (load_metadata_for_topics (n + 1) ctx ts).ctx.st.brokers = resp.brokers := by
  have hstep := load_metadata_step n ctx ts pools rest resp hs hr
  obtain ⟨e1, e2, e3, e4, e5, e6, e7⟩ :=
    process_topics_clean n resp.brokers resp.topics
      { ctx with
        st := { ctx.st with brokers := resp.brokers, topics_to_brokers := [] },
        stream := rest, requests := ctx.requests ++ [ts] } hcl
  refine ⟨?_, ?_, ?_⟩
  · intro t ht
    rw [hstep, e6 t ht]
  · intro k hk
    rw [hstep]
    cases hlk : alookup (process_topics n
        { ctx with
          st := { ctx.st with brokers := resp.brokers, topics_to_brokers := [] },
          stream := rest, requests := ctx.requests ++ [ts] }
        resp.brokers resp.topics).ctx.st.topics_to_brokers k with
    | none => rfl
    | some b =>
      rcases e7 k (by simp [hlk]) with h | h
      · exact absurd h hk
      · simp [alookup] at h
  · rw [hstep, e5]

/-- Witness for C5 (amended): refresh for topic "b" against a cache that
knows topic "a"; the partition list of "a" survives, its leader mapping
does not (it is absent from the rebuilt map), and the broker map is
replaced. -/
theorem refresh_replaces_leader_map_wholesale_witness :
    (∀ t, t ∉ ([("b", [(0, (⟨2⟩ : PartitionMetadata))])].map Prod.fst) →
      alookup (load_metadata_for_topics 2
        ⟨⟨[(1, ⟨1, "A", 1⟩)], [(⟨"a", 0⟩, ⟨1, "A", 1⟩)], [("a", [0])]⟩,
          [[some ⟨[(2, ⟨2, "B", 2⟩)], [("b", [(0, ⟨2⟩)])]⟩]], [], 0⟩
        ["b"]).ctx.st.topic_partitions t =
        alookup [("a", [0])] t) ∧
    (∀ k : TopicAndPartition, k.topic ∉ ([("b", [(0, (⟨2⟩ : PartitionMetadata))])].map Prod.fst) →
      alookup (load_metadata_for_topics 2
        ⟨⟨[(1, ⟨1, "A", 1⟩)], [(⟨"a", 0⟩, ⟨1, "A", 1⟩)], [("a", [0])]⟩,
          [[some ⟨[(2, ⟨2, "B", 2⟩)], [("b", [(0, ⟨2⟩)])]⟩]], [], 0⟩
        ["b"]).ctx.st.topics_to_brokers k = none) ∧
    (load_metadata_for_topics 2
      ⟨⟨[(1, ⟨1, "A", 1⟩)], [(⟨"a", 0⟩, ⟨1, "A", 1⟩)], [("a", [0])]⟩,
        [[some ⟨[(2, ⟨2, "B", 2⟩)], [("b", [(0, ⟨2⟩)])]⟩]], [], 0⟩
      ["b"]).ctx.st.brokers = [(2, ⟨2, "B", 2⟩)] :=
  refresh_replaces_leader_map_wholesale 1
    ⟨⟨[(1, ⟨1, "A", 1⟩)], [(⟨"a", 0⟩, ⟨1, "A", 1⟩)], [("a", [0])]⟩,
      [[some ⟨[(2, ⟨2, "B", 2⟩)], [("b", [(0, ⟨2⟩)])]⟩]], [], 0⟩ ["b"]
    [some ⟨[(2, ⟨2, "B", 2⟩)], [("b", [(0, ⟨2⟩)])]⟩] []
    ⟨[(2, ⟨2, "B", 2⟩)], [("b", [(0, ⟨2⟩)])]⟩ rfl rfl (by decide)

/-- Committing one partition's leader mapping preserves the ClusterView
invariant when the stored broker was looked up in a well-formed broker
map. -/
theorem cluster_invariant_commit (st : ClientState) (t : String) (p : Nat)
    (ld : Int) (b : BrokerMetadata)
    (hinv : cluster_invariant st = true)
    (hwf : wf_brokers st.brokers = true)
    (hld : alookup st.brokers ld = some b) :
    cluster_invariant
      { st with
        topics_to_brokers := ainsert st.topics_to_brokers ⟨t, p⟩ b,
        topic_partitions := append_partition st.topic_partitions t p } = true := by
  simp only [cluster_invariant, List.all_eq_true, Bool.and_eq_true] at hinv ⊢
  intro kb hkb
  rcases mem_ainsert st.topics_to_brokers ⟨t, p⟩ b kb hkb with h | h
  · subst h
    constructor
    · simpa using append_partition_mem_self st.topic_partitions t p
    · have hid := wf_brokers_lookup st.brokers ld b hwf hld
      simp [hid, hld]
  · obtain ⟨h1, h2⟩ := hinv kb h
    constructor
    · simpa using
        append_partition_mem_mono st.topic_partitions t kb.1.topic p kb.1.partition
          (by simpa using h1)
    · exact h2

/-- Popping the partition list of a topic no current leader-map entry
belongs to preserves the ClusterView invariant. -/
theorem cluster_invariant_pop (st : ClientState) (t : String)
    (hinv : cluster_invariant st = true)
    (hdis : ∀ kb ∈ st.topics_to_brokers, kb.1.topic ≠ t) :
    cluster_invariant { st with topic_partitions := apop st.topic_partitions t }
      = true := by
  simp only [cluster_invariant, List.all_eq_true, Bool.and_eq_true] at hinv ⊢
  intro kb hkb
  obtain ⟨h1, h2⟩ := hinv kb hkb
  refine ⟨?_, h2⟩
  rw [alookup_apop_ne st.topic_partitions t kb.1.topic (hdis kb hkb)]
  exact h1

/-- Processing a clean partition map preserves the ClusterView
invariant. -/
theorem process_partitions_inv (n : Nat) (bs : List (Int × BrokerMetadata))
    (topic : String) :
    ∀ (parts : List (Nat × PartitionMetadata)) (ctx : LoadCtx),
      clean_parts bs parts = true → ctx.st.brokers = bs → wf_brokers bs = true →
      cluster_invariant ctx.st = true →
      cluster_invariant (process_partitions n ctx bs topic parts).ctx.st = true := by
  intro parts
  induction parts with
  | nil =>
    intro ctx _ _ _ hinv
    have h0 : process_partitions n ctx bs topic [] = ⟨ctx, none⟩ := by
      simp only [process_partitions]
    rw [h0]
    exact hinv
  | cons pm rest ih =>
    intro ctx hcl hbs hwf hinv
    obtain ⟨prt, meta⟩ := pm
    simp only [clean_parts, List.all_cons, Bool.and_eq_true, bne_iff_ne] at hcl
    have hrest : clean_parts bs rest = true := by
      simp only [clean_parts]
      exact hcl.2
    obtain ⟨b, hb⟩ := Option.isSome_iff_exists.mp hcl.1.2
    have hstep : process_partitions n ctx bs topic ((prt, meta) :: rest) =
        process_partitions n
          { ctx with st := { ctx.st with
              topics_to_brokers := ainsert ctx.st.topics_to_brokers ⟨topic, prt⟩ b,
              topic_partitions := append_partition ctx.st.topic_partitions topic prt } }
          bs topic rest := by
      simp only [process_partitions]
      rw [if_neg hcl.1.1, hb]
    rw [hstep]
    refine ih _ hrest ?_ hwf ?_
    · exact hbs
    · exact cluster_invariant_commit ctx.st topic prt meta.leader b hinv
        (by rw [hbs]; exact hwf) (by rw [hbs]; exact hb)

/-- Processing a clean topic list with distinct topic keys, starting from
an invariant-satisfying state whose leader map has no entry for any
reported topic, preserves the ClusterView invariant. -/
theorem process_topics_inv (n : Nat) (bs : List (Int × BrokerMetadata)) :
    ∀ (items : List (String × List (Nat × PartitionMetadata))) (ctx : LoadCtx),
      clean_topics bs items = true → ctx.st.brokers = bs → wf_brokers bs = true →
      cluster_invariant ctx.st = true →
      (items.map Prod.fst).Nodup →
      (∀ k : TopicAndPartition, (alookup ctx.st.topics_to_brokers k).isSome →
        k.topic ∉ items.map Prod.fst) →
      cluster_invariant (process_topics n ctx bs items).ctx.st = true := by
  intro items
  induction items with
  | nil =>
    intro ctx _ _ _ hinv _ _
    have h0 : process_topics n ctx bs [] = ⟨ctx, none⟩ := by
      simp only [process_topics]
    rw [h0]
    exact hinv
  | cons item rest ih =>
    intro ctx hcl hbs hwf hinv hnd hdis
    obtain ⟨topic, parts⟩ := item
    simp only [clean_topics, List.all_cons, Bool.and_eq_true] at hcl
    have hct : clean_topics bs rest = true := by
      simp only [clean_topics]
      exact hcl.2
    rw [List.map_cons] at hnd
    have hnd1 := List.nodup_cons.mp hnd
    cases parts with
    | nil => exact absurd hcl.1.1 (by simp)
    | cons q qs =>
      have hpop : cluster_invariant
          { ctx.st with topic_partitions := apop ctx.st.topic_partitions topic }
          = true := by
        apply cluster_invariant_pop ctx.st topic hinv
        intro kb hkb
        have hks := alookup_isSome_of_mem ctx.st.topics_to_brokers kb.1 kb.2 hkb
        intro he
        exact hdis kb.1 hks (by simp [he])
      obtain ⟨p1, p2, p3, p4, p5, p6, p7⟩ := process_partitions_clean n bs topic
        (q :: qs)
        { ctx with st := { ctx.st with
            topic_partitions := apop ctx.st.topic_partitions topic } } hcl.1.2
      have hppinv := process_partitions_inv n bs topic (q :: qs)
        { ctx with st := { ctx.st with
            topic_partitions := apop ctx.st.topic_partitions topic } }
        hcl.1.2 hbs hwf hpop
      have hpe : process_partitions n
          { ctx with st := { ctx.st with
              topic_partitions := apop ctx.st.topic_partitions topic } }
          bs topic (q :: qs) =
          ⟨(process_partitions n
            { ctx with st := { ctx.st with
                topic_partitions := apop ctx.st.topic_partitions topic } }
            bs topic (q :: qs)).ctx, none⟩ := by
        rw [← p1]
      have hstep : process_topics n ctx bs ((topic, q :: qs) :: rest) =
          process_topics n (process_partitions n
            { ctx with st := { ctx.st with
                topic_partitions := apop ctx.st.topic_partitions topic } }
            bs topic (q :: qs)).ctx bs rest := by
        simp only [process_topics]
        rw [hpe]
      rw [hstep]
      refine ih _ hct (by rw [p5]; exact hbs) hwf hppinv hnd1.2 ?_
      intro k hk
      rcases p7 k hk with h | h
      · rw [h]
        exact hnd1.1
      · intro hmem
        exact hdis k h (by simp [hmem])

/-- C9 counterexample: a refresh whose first response reports topic "t"
with an absent leader retries mid-loop; the retry replaces the broker map,
after which the outer loop commits topic "a" from the stale local broker
map — the refresh completes normally but the committed entry's broker id
is absent from the final broker map, violating the ClusterView
invariant. -/
theorem refresh_retry_breaks_cluster_invariant :
    (load_metadata_for_topics 3
      ⟨⟨[], [], []⟩,
        [[some ⟨[(0, ⟨0, "h0", 9090⟩)], [("t", [(0, ⟨-1⟩)]), ("a", [(0, ⟨0⟩)])]⟩],
         [some ⟨[(5, ⟨5, "h5", 9095⟩)], [("t", [(0, ⟨5⟩)])]⟩]], [], 0⟩ []).err
      = none ∧
    alookup (load_metadata_for_topics 3
      ⟨⟨[], [], []⟩,
        [[some ⟨[(0, ⟨0, "h0", 9090⟩)], [("t", [(0, ⟨-1⟩)]), ("a", [(0, ⟨0⟩)])]⟩],
         [some ⟨[(5, ⟨5, "h5", 9095⟩)], [("t", [(0, ⟨5⟩)])]⟩]], [], 0⟩
      []).ctx.st.topics_to_brokers ⟨"a", 0⟩ = some ⟨0, "h0", 9090⟩ ∧
    alookup (load_metadata_for_topics 3
      ⟨⟨[], [], []⟩,
        [[some ⟨[(0, ⟨0, "h0", 9090⟩)], [("t", [(0, ⟨-1⟩)]), ("a", [(0, ⟨0⟩)])]⟩],
         [some ⟨[(5, ⟨5, "h5", 9095⟩)], [("t", [(0, ⟨5⟩)])]⟩]], [], 0⟩
      []).ctx.st.brokers 0 = none ∧
    cluster_invariant (load_metadata_for_topics 3
      ⟨⟨[], [], []⟩,
        [[some ⟨[(0, ⟨0, "h0", 9090⟩)], [("t", [(0, ⟨-1⟩)]), ("a", [(0, ⟨0⟩)])]⟩],
         [some ⟨[(5, ⟨5, "h5", 9095⟩)], [("t", [(0, ⟨5⟩)])]⟩]], [], 0⟩
      []).ctx.st = false := by
  refine ⟨?_, ?_, ?_, ?_⟩ <;>
    simp [load_metadata_for_topics, process_topics, process_partitions,
      send_broker_unaware_request, alookup, ainsert, apop, append_partition,
      cluster_invariant]

/-- C9 (amended): the ClusterView invariant (every leader-map key's
partition in its topic's partition list, every referenced broker id in the
broker map) holds after a refresh that completes from a single clean,
well-formed metadata response with distinct topic keys, and is preserved
by any broker-aware send over cached keys (whose only cache mutation is
emptying the leader map); a refresh that retries mid-response can break
it. -/
theorem cluster_invariant_behavior (n : Nat) (ctx : LoadCtx) (ts : List String)
    (pools : Pools) (rest : List Pools) (resp : MetadataResponse)
    (hs : ctx.stream = pools :: rest)
    (hr : send_broker_unaware_request pools = some resp)
    (hcl : clean_topics resp.brokers resp.topics = true)
    (hwf : wf_brokers resp.brokers = true)
    (hnd : (resp.topics.map Prod.fst).Nodup) :
    cluster_invariant (load_metadata_for_topics (n + 1) ctx ts).ctx.st = true ∧
    (∀ (fuel2 : Nat) (ctx2 : LoadCtx) (payloads : List Payload) (hd : Bool)
      (exchange : BrokerMetadata → List Payload → Option (List Response)),
      (∀ p ∈ payloads,
        (alookup ctx2.st.topics_to_brokers ⟨p.topic, p.partition⟩).isSome) →
      cluster_invariant ctx2.st = true →
      cluster_invariant
        (send_broker_aware_request fuel2 ctx2 payloads hd exchange).ctx.st = true) := by
  constructor
  · rw [load_metadata_step n ctx ts pools rest resp hs hr]
    apply process_topics_inv n resp.brokers resp.topics _ hcl rfl hwf
      (by simp [cluster_invariant]) hnd
    intro k hk
    simp [alookup] at hk
  · intro fuel2 ctx2 payloads hd exchange hcache2 hinv2
    rw [send_broker_aware_cached fuel2 ctx2 payloads hd exchange hcache2]
    by_cases hany : ((group_pure ctx2.st.topics_to_brokers [] payloads).any
        fun g => (exchange g.1 g.2).isNone) = true
    · simp [hany, cluster_invariant]
    · simpa [hany] using hinv2

/-- Witness for C9 (amended): a fresh client, one clean single-topic
response. -/
theorem cluster_invariant_behavior_witness :
    cluster_invariant (load_metadata_for_topics 1
      ⟨⟨[], [], []⟩, [[some ⟨[(1, ⟨1, "A", 1⟩)], [("t", [(0, ⟨1⟩)])]⟩]], [], 0⟩
      []).ctx.st = true ∧
    (∀ (fuel2 : Nat) (ctx2 : LoadCtx) (payloads : List Payload) (hd : Bool)
      (exchange : BrokerMetadata → List Payload → Option (List Response)),
      (∀ p ∈ payloads,
        (alookup ctx2.st.topics_to_brokers ⟨p.topic, p.partition⟩).isSome) →
      cluster_invariant ctx2.st = true →
      cluster_invariant
        (send_broker_aware_request fuel2 ctx2 payloads hd exchange).ctx.st = true) :=
  cluster_invariant_behavior 0
    ⟨⟨[], [], []⟩, [[some ⟨[(1, ⟨1, "A", 1⟩)], [("t", [(0, ⟨1⟩)])]⟩]], [], 0⟩
    [] [some ⟨[(1, ⟨1, "A", 1⟩)], [("t", [(0, ⟨1⟩)])]⟩] []
    ⟨[(1, ⟨1, "A", 1⟩)], [("t", [(0, ⟨1⟩)])]⟩ rfl rfl (by decide) (by decide)
    (by simp)

/-- C6: with a discovery stub whose first response reports topic "u" with
the leader-absent sentinel (and topic "v" with a valid leader) and whose
second response reports a valid leader for "u", the refresh sleeps once,
re-requests exactly topic "u", completes normally, commits the valid
leader for "u" (so a subsequent leader lookup succeeds with it after the
retry) and still processes the other topic "v" of the original
response. -/
theorem refresh_retries_on_absent_leader :
    (load_metadata_for_topics 3
      ⟨⟨[], [], []⟩,
        [[some ⟨[(1, ⟨1, "x1", 1001⟩)], [("u", [(0, ⟨-1⟩)]), ("v", [(0, ⟨1⟩)])]⟩],
         [some ⟨[(2, ⟨2, "x2", 1002⟩)], [("u", [(0, ⟨2⟩)])]⟩]], [], 0⟩ []).err
      = none ∧
    (load_metadata_for_topics 3
      ⟨⟨[], [], []⟩,
        [[some ⟨[(1, ⟨1, "x1", 1001⟩)], [("u", [(0, ⟨-1⟩)]), ("v", [(0, ⟨1⟩)])]⟩],
         [some ⟨[(2, ⟨2, "x2", 1002⟩)], [("u", [(0, ⟨2⟩)])]⟩]], [], 0⟩
      []).ctx.sleeps = 1 ∧
    (load_metadata_for_topics 3
      ⟨⟨[], [], []⟩,
        [[some ⟨[(1, ⟨1, "x1", 1001⟩)], [("u", [(0, ⟨-1⟩)]), ("v", [(0, ⟨1⟩)])]⟩],
         [some ⟨[(2, ⟨2, "x2", 1002⟩)], [("u", [(0, ⟨2⟩)])]⟩]], [], 0⟩
      []).ctx.requests = [[], ["u"]] ∧
    alookup (load_metadata_for_topics 3
      ⟨⟨[], [], []⟩,
        [[some ⟨[(1, ⟨1, "x1", 1001⟩)], [("u", [(0, ⟨-1⟩)]), ("v", [(0, ⟨1⟩)])]⟩],
         [some ⟨[(2, ⟨2, "x2", 1002⟩)], [("u", [(0, ⟨2⟩)])]⟩]], [], 0⟩
      []).ctx.st.topics_to_brokers ⟨"u", 0⟩ = some ⟨2, "x2", 1002⟩ ∧
    alookup (load_metadata_for_topics 3
      ⟨⟨[], [], []⟩,
        [[some ⟨[(1, ⟨1, "x1", 1001⟩)], [("u", [(0, ⟨-1⟩)]), ("v", [(0, ⟨1⟩)])]⟩],
         [some ⟨[(2, ⟨2, "x2", 1002⟩)], [("u", [(0, ⟨2⟩)])]⟩]], [], 0⟩
      []).ctx.st.topics_to_brokers ⟨"v", 0⟩ = some ⟨1, "x1", 1001⟩ ∧
    (get_leader_for_partition 1 (load_metadata_for_topics 3
      ⟨⟨[], [], []⟩,
        [[some ⟨[(1, ⟨1, "x1", 1001⟩)], [("u", [(0, ⟨-1⟩)]), ("v", [(0, ⟨1⟩)])]⟩],
         [some ⟨[(2, ⟨2, "x2", 1002⟩)], [("u", [(0, ⟨2⟩)])]⟩]], [], 0⟩
      []).ctx "u" 0).res = .ok ⟨2, "x2", 1002⟩ := by
  refine ⟨?_, ?_, ?_, ?_, ?_, ?_⟩ <;>
    simp [load_metadata_for_topics, process_topics, process_partitions,
      send_broker_unaware_request, get_leader_for_partition,
      alookup, ainsert, apop, append_partition]

end KafkaSpec
